import Mathlib

/-!
Shallow embedding of the record reconciliation and validation pipeline of the
ac-feed-validator repository (src/lib/validators/types.ts,
src/lib/validators/validate-client.ts and the OpenAI validator module).

JavaScript values appearing in feed records are modelled by `Value`
(strings, numbers, booleans, null); numeric values are modelled as integers
(floating point is out of scope for the properties verified here, which only
compare numbers against small integer bounds).  A JavaScript object is
modelled as an insertion-ordered association list `Obj`; property read
(`record[k]`, with `undefined` for a missing key) is `List.lookup`, and
property assignment (which updates in place or appends a new key) is `setKey`.
Presentation-only metadata (validator name/description/version, file
name/format/size, supported-format checks) and the file parsing layer are
external collaborators and are not modelled; the orchestrator is embedded as a
function of the already-parsed record list.  The `onProgress` callback is
modelled by accumulating the emitted progress snapshots into a list, and the
monotone `AbortSignal` is modelled by `cancelAt : Option Nat`: the signal is
observed aborted at loop index `i` exactly when `cancelAt = some k` with
`k ≤ i`.
-/

namespace FeedValidator

inductive Value where
  | str (s : String)
  | num (n : Int)
  | bool (b : Bool)
  | null
deriving DecidableEq, Repr

abbrev Obj := List (String × Value)

/-- JavaScript property assignment `m[k] = v`: overwrite the existing entry in
place if the key is present, otherwise append the new key at the end. -/
def setKey (m : List (String × α)) (k : String) (v : α) : List (String × α) :=
  if (m.lookup k).isSome then
    m.map (fun p => if p.1 = k then (k, v) else p)
  else
    m ++ [(k, v)]

inductive Severity where
  | error
  | warning
  | info
deriving DecidableEq, Repr

/-- Result of the JS expression `path.reduce(...)` used to extract the
offending value of a validation issue: it can be a nested object, a primitive
value, or `undefined`. -/
inductive JsValue where
  | obj (o : Obj)
  | val (v : Value)
  | undef
deriving DecidableEq, Repr

/-- `ValidationIssue` from types.ts (the optional `value` field; `undefined`
is `JsValue.undef`). -/
structure ValidationIssue where
  row : Nat
  field : String
  message : String
  severity : Severity
  value : JsValue
deriving DecidableEq, Repr

/-- `RecordValidationResult` from types.ts (the unused optional `normalized`
field is omitted; no claim mentions it). -/
structure RecordValidationResult where
  row : Nat
  isValid : Bool
  issues : List ValidationIssue
  data : Option Obj
deriving DecidableEq, Repr

/-- `ValidatorModule` from types.ts, restricted to the fields the pipeline
reads.  `validateRecordRaw` is the optional raw-check entry point consulted by
`preValidateClient` (`validator.validateRecordRaw ?? validator.validateRecord`);
the module registered in src provides none, so it defaults to `none`. -/
structure ValidatorModule where
  fieldAliases : List (String × List String)
  fieldNormalizers : List (String × (Value → Value))
  defaultValues : Option (List (String × Value))
  validateRecord : Obj → Nat → RecordValidationResult
  validateRecordRaw : Option (Obj → Nat → RecordValidationResult)

/-! ### normalizeRecord (types.ts lines 67–125) -/

/-- The alias scan of normalizeRecord step 1: take the first alias in declared
order whose value is defined (present) and not the empty string. -/
def firstNonEmptyAlias (record : Obj) : List String → Option Value
  | [] => none
  | a :: rest =>
    match record.lookup a with
    | some v => if v = Value.str "" then firstNonEmptyAlias record rest else some v
    | none => firstNonEmptyAlias record rest

/-- Resolution of one canonical field: the canonical name itself when defined
and non-empty, otherwise the first defined non-empty alias. -/
def resolveField (record : Obj) (canonicalName : String) (aliasList : List String) :
    Option Value :=
  match record.lookup canonicalName with
  | some v => if v = Value.str "" then firstNonEmptyAlias record aliasList else some v
  | none => firstNonEmptyAlias record aliasList

/-- The loop body of normalizeRecord step 1: assign the resolved value of one
canonical field, or leave the object unchanged when nothing resolved. -/
def aliasStep (record : Obj) (normalized : Obj) (ca : String × List String) : Obj :=
  match resolveField record ca.1 ca.2 with
  | some v => setKey normalized ca.1 v
  | none => normalized

/-- Step 1 of normalizeRecord: map aliased fields to canonical names
(`for (const [canonicalName, aliasList] of Object.entries(aliases))`). -/
def mapAliasedFields (record : Obj) (aliases : List (String × List String)) : Obj :=
  aliases.foldl (aliasStep record) []

/-- Whether a key is a declared alias of some canonical field. -/
def isAliasKey (aliases : List (String × List String)) (k : String) : Bool :=
  aliases.any (fun ca => ca.2.contains k)

/-- The loop body of normalizeRecord step 2: copy one raw field unless its
key is already present or is a declared alias. -/
def passStep (aliases : List (String × List String)) (acc : Obj)
    (kv : String × Value) : Obj :=
  if (acc.lookup kv.1).isSome then acc
  else if isAliasKey aliases kv.1 then acc
  else setKey acc kv.1 kv.2

/-- Step 2 of normalizeRecord: copy any raw field whose key is not already in
the normalized object and is not a declared alias. -/
def copyUnmapped (record : Obj) (aliases : List (String × List String))
    (normalized : Obj) : Obj :=
  record.foldl (passStep aliases) normalized

/-- The loop body of normalizeRecord step 3: substitute one default when the
field is still undefined or the empty string. -/
def defaultStep (acc : Obj) (kv : String × Value) : Obj :=
  match acc.lookup kv.1 with
  | none => setKey acc kv.1 kv.2
  | some v => if v = Value.str "" then setKey acc kv.1 kv.2 else acc

/-- Step 3 of normalizeRecord: substitute a default when the field is still
undefined or the empty string. -/
def applyDefaults (defaults : Option (List (String × Value))) (normalized : Obj) : Obj :=
  match defaults with
  | none => normalized
  | some ds => ds.foldl defaultStep normalized

/-- The loop body of normalizeRecord step 4: transform one field when it is
defined. -/
def normStep (acc : Obj) (fn : String × (Value → Value)) : Obj :=
  match acc.lookup fn.1 with
  | some v => setKey acc fn.1 (fn.2 v)
  | none => acc

/-- Step 4 of normalizeRecord: apply each field normalizer when the field is
defined. -/
def applyNormalizers (normalizers : List (String × (Value → Value)))
    (normalized : Obj) : Obj :=
  normalizers.foldl normStep normalized

/-- `normalizeRecord` from types.ts: alias mapping, pass-through of unmapped
fields, default injection, then normalizers. -/
def normalizeRecord (record : Obj) (aliases : List (String × List String))
    (normalizers : List (String × (Value → Value)))
    (defaults : Option (List (String × Value))) : Obj :=
  applyNormalizers normalizers
    (applyDefaults defaults
      (copyUnmapped record aliases (mapAliasedFields record aliases)))

/-! ### detectRawIssues (validate-client.ts lines 59–205) -/

def BOOLEAN_FIELDS : List String :=
  ["is_eligible_search", "is_eligible_checkout", "listing_has_variations",
   "accepts_returns", "accepts_exchanges", "is_digital"]

def URL_FIELDS : List String :=
  ["url", "image_url", "seller_url", "return_policy", "seller_privacy_policy",
   "seller_tos", "warning_url"]

/-- A raw issue produced by detectRawIssues.  `original` is the JS `unknown`
original value (the rename branch stores the alias name as a string);
`fixed` is `none` when the code stores `undefined`. -/
structure RawIssue where
  field : String
  original : Value
  fixed : Option Value
  problem : String
  severity : Severity
deriving DecidableEq, Repr

/-- The alias scan of `getFieldValue` inside detectRawIssues: the first alias
whose value is defined (any value, including null and the empty string). -/
def firstDefinedAlias (record : Obj) : List String → Option (String × Value)
  | [] => none
  | a :: rest =>
    match record.lookup a with
    | some v => some (a, v)
    | none => firstDefinedAlias record rest

/-- `getFieldValue` helper of detectRawIssues: the field value under the
canonical name if defined, else under the first defined alias. -/
def getFieldValue (record : Obj) (fieldAliases : List (String × List String))
    (fieldName : String) : Option (Value × String) :=
  match record.lookup fieldName with
  | some v => some (v, fieldName)
  | none =>
    match firstDefinedAlias record ((fieldAliases.lookup fieldName).getD []) with
    | some (a, v) => some (v, a)
    | none => none

/-- JS `s.includes(pat)` for a non-empty pattern. -/
def jsIncludes (s pat : String) : Bool :=
  2 ≤ (s.splitOn pat).length

/-- JS `parseInt(s, 10)`: skip leading whitespace, optional sign, then the
longest digit prefix; `none` models NaN. -/
def parseIntJS (s : String) : Option Int :=
  let cs := s.data.dropWhile (fun c => c = ' ' ∨ c = '\t' ∨ c = '\n' ∨ c = '\r')
  let signRest : Int × List Char :=
    match cs with
    | '-' :: r => (-1, r)
    | '+' :: r => (1, r)
    | r => (1, r)
  let ds := signRest.2.takeWhile Char.isDigit
  if ds.isEmpty then none
  else some (signRest.1 * (ds.foldl (fun n c => 10 * n + ((c.toNat : Int) - 48)) 0))

/-- The numeric value of the return_window check:
`typeof value === "number" ? value : parseInt(String(value), 10)`.
`String(true)`, `String(false)` and `String(null)` have no digit prefix, so
parseInt yields NaN on them. -/
def returnWindowNum (v : Value) : Option Int :=
  match v with
  | Value.num n => some n
  | Value.str s => parseIntJS s
  | Value.bool _ => none
  | Value.null => none

/-- Booleans-passed-as-strings check of detectRawIssues. -/
def boolStringIssues (record : Obj) (fieldAliases : List (String × List String)) :
    List RawIssue :=
  BOOLEAN_FIELDS.filterMap (fun field =>
    match getFieldValue record fieldAliases field with
    | some (Value.str s, actualField) =>
      let strVal := s.toLower
      if ["true", "false", "1", "0"].contains strVal then
        let b := ["true", "1"].contains strVal
        some { field := actualField, original := Value.str s,
               fixed := some (Value.bool b),
               problem := "Boolean as string → will convert to " ++
                 (if b then "true" else "false"),
               severity := Severity.warning }
      else none
    | _ => none)

/-- Localhost-URL check of detectRawIssues. -/
def localhostIssues (record : Obj) (fieldAliases : List (String × List String)) :
    List RawIssue :=
  URL_FIELDS.filterMap (fun field =>
    match getFieldValue record fieldAliases field with
    | some (Value.str s, actualField) =>
      let url := s.toLower
      if jsIncludes url "localhost" || jsIncludes url "127.0.0.1" then
        some { field := actualField, original := Value.str s, fixed := none,
               problem := "URL contains localhost - may not pass OpenAI validation",
               severity := Severity.warning }
      else none
    | _ => none)

/-- Short return-window check of detectRawIssues. -/
def returnWindowIssues (record : Obj) (fieldAliases : List (String × List String)) :
    List RawIssue :=
  match getFieldValue record fieldAliases "return_window" with
  | some (v, actualField) =>
    match returnWindowNum v with
    | some n =>
      if n < 7 then
        [{ field := actualField, original := v, fixed := none,
           problem := "Return window is only " ++ toString n ++
             " day(s) - unusually short",
           severity := Severity.warning }]
      else []
    | none => []
  | none => []

/-- Misnamed-field check of detectRawIssues: an info issue for every declared
alias that is defined while its canonical name is undefined. -/
def renameIssues (record : Obj) (fieldAliases : List (String × List String)) :
    List RawIssue :=
  fieldAliases.flatMap (fun ca =>
    ca.2.filterMap (fun al =>
      if (record.lookup al).isSome && (record.lookup ca.1) = none then
        some { field := al, original := Value.str al,
               fixed := some (Value.str ca.1),
               problem := "Field \"" ++ al ++ "\" renamed to \"" ++ ca.1 ++ "\"",
               severity := Severity.info }
      else none))

/-- Normalizer-transformation check of detectRawIssues. -/
def normalizerIssues (record : Obj) (fieldAliases : List (String × List String))
    (fieldNormalizers : List (String × (Value → Value))) : List RawIssue :=
  fieldNormalizers.filterMap (fun fn =>
    let found : String × Option Value :=
      match record.lookup fn.1 with
      | some v => (fn.1, some v)
      | none =>
        match firstDefinedAlias record ((fieldAliases.lookup fn.1).getD []) with
        | some (a, v) => (a, some v)
        | none => (fn.1, none)
    match found.2 with
    | some originalValue =>
      if originalValue = Value.null ∨ originalValue = Value.str "" then none
      else
        let normalized := fn.2 originalValue
        if normalized = originalValue then none
        else
          let problem :=
            if fn.1 = "price" ∨ fn.1 = "sale_price" ∨ fn.1 = "shipping_price" then
              "Price format corrected (comma → dot)"
            else if fn.1 = "availability" then "Availability format standardized"
            else if fn.1 = "return_window" then "Return window extracted (days → number)"
            else if fn.1 = "condition" then "Condition value translated"
            else "Value normalized"
          some { field := found.1, original := originalValue,
                 fixed := some normalized, problem := problem,
                 severity := Severity.info }
    | none => none)

/-- `detectRawIssues` from validate-client.ts: the five checks, in the order
the source pushes them into its issue array. -/
def detectRawIssues (record : Obj) (fieldAliases : List (String × List String))
    (fieldNormalizers : List (String × (Value → Value))) : List RawIssue :=
  boolStringIssues record fieldAliases ++
  localhostIssues record fieldAliases ++
  returnWindowIssues record fieldAliases ++
  renameIssues record fieldAliases ++
  normalizerIssues record fieldAliases fieldNormalizers

/-! ### The OpenAI validator module (src/lib/validators/openai/schema.ts) -/

namespace OpenAI

/-- One issue of a failed zod `safeParse`: an issue path and a message. -/
structure ZodIssue where
  path : List String
  message : String
deriving DecidableEq, Repr

/-- Outcome of `schema.safeParse(record)`. -/
inductive ZodParseResult where
  | success (data : Obj)
  | failure (issues : List ZodIssue)
deriving DecidableEq, Repr

/-- The JS reduction extracting the offending value of an issue:
`issue.path.reduce((obj, key) => obj && typeof obj === "object" && key in obj
? obj[key] : undefined, record)`.  A primitive accumulator is never a truthy
object, so any further key yields `undefined`; the empty path yields the
record itself. -/
def pathReduce (record : Obj) (path : List String) : JsValue :=
  path.foldl
    (fun acc key =>
      match acc with
      | JsValue.obj o =>
        match o.lookup key with
        | some v => JsValue.val v
        | none => JsValue.undef
      | _ => JsValue.undef)
    (JsValue.obj record)

/-- `validateRecord` of the OpenAI validator module, parameterized by the zod
schema's `safeParse` (the declarative rule set itself is an external zod
object; the wrapper is what the module contributes).  Structurally total: it
never throws. -/
def validateRecord (safeParse : Obj → ZodParseResult) (record : Obj) (row : Nat) :
    RecordValidationResult :=
  match safeParse record with
  | ZodParseResult.success data =>
    { row := row, isValid := true, issues := [], data := some data }
  | ZodParseResult.failure zodIssues =>
    { row := row, isValid := false,
      issues := zodIssues.map (fun zi =>
        { row := row, field := String.intercalate "." zi.path,
          message := zi.message, severity := Severity.error,
          value := pathReduce record zi.path }),
      data := none }

/-- The `openAIValidator` module object: the module in src registers only
`validateRecord` (no alias table, no normalizers, no defaults, and no
`validateRecordRaw`). -/
def openAIValidator (safeParse : Obj → ZodParseResult) : ValidatorModule :=
  { fieldAliases := []
    fieldNormalizers := []
    defaultValues := none
    validateRecord := validateRecord safeParse
    validateRecordRaw := none }

end OpenAI

/-! ### The validateClient orchestrator (validate-client.ts lines 207–444) -/

def MAX_ISSUES_RETURNED : Nat := 100
def MAX_VALID_RECORDS_STORED : Nat := 10000
def MAX_RAW_ISSUES_PREVIEW : Nat := 20

/-- `RawFeedIssue`: an aggregated raw-issue preview entry. -/
structure RawFeedIssue where
  field : String
  originalValue : Value
  problem : String
  fixedValue : Option Value
  count : Nat
  severity : Severity
deriving DecidableEq, Repr

/-- `ValidationProgress`: one emitted progress snapshot. -/
structure ValidationProgress where
  totalRows : Nat
  processedRows : Nat
  validRows : Nat
  invalidRows : Nat
  errorCount : Nat
  warningCount : Nat
  isComplete : Bool
  isCancelled : Bool
deriving DecidableEq, Repr

/-- `FeedValidationSummary` from types.ts. -/
structure FeedValidationSummary where
  totalRows : Nat
  validRows : Nat
  invalidRows : Nat
  errorCount : Nat
  warningCount : Nat
  issues : List ValidationIssue
  validRecords : Option (List Obj)
deriving DecidableEq, Repr

/-- `ClientValidationResult` (the external `validator` and `file` metadata
blocks are not modelled). -/
structure ClientValidationResult where
  success : Bool
  summary : FeedValidationSummary
  rawIssues : Option (List RawFeedIssue)
  truncated : Bool
  validRecordsTruncated : Bool
deriving DecidableEq, Repr

/-- Mutable state of the validateClient loop.  The progress snapshots emitted
through the `onProgress` callback are collected separately by the loop (they
are write-only output, never read back by the source). -/
structure RunState where
  validRows : Nat
  invalidRows : Nat
  errorCount : Nat
  warningCount : Nat
  processedInChunk : Nat
  issues : List ValidationIssue
  validRecords : List Obj
  rawIssuesMap : List (String × RawFeedIssue)
deriving DecidableEq, Repr

/-- Insertion of one detected raw issue into the aggregation map, keyed by
`field ++ ":" ++ problem`: bump the count of an existing entry, else insert a
new entry only while the map holds fewer than `MAX_RAW_ISSUES_PREVIEW`. -/
def addRawIssue (m : List (String × RawFeedIssue)) (issue : RawIssue) :
    List (String × RawFeedIssue) :=
  let key := issue.field ++ ":" ++ issue.problem
  match m.lookup key with
  | some existing =>
    m.map (fun p => if p.1 = key then (key, { existing with count := existing.count + 1 }) else p)
  | none =>
    if m.length < MAX_RAW_ISSUES_PREVIEW then
      m ++ [(key, { field := issue.field, originalValue := issue.original,
                    problem := issue.problem, fixedValue := issue.fixed,
                    count := 1, severity := issue.severity })]
    else m

def addRawIssues (m : List (String × RawFeedIssue)) (issues : List RawIssue) :
    List (String × RawFeedIssue) :=
  issues.foldl addRawIssue m

/-- Custom field-mapping application (validate-client.ts lines 317–330):
rebuild the record, renaming a field to its mapped target when the mapping
holds a truthy (non-empty) target for it, keeping it under its original name
otherwise; when no mapping object is supplied the record is used as is. -/
def applyCustomMappings (customMappings : Option (List (String × String)))
    (record : Obj) : Obj :=
  match customMappings with
  | none => record
  | some cm =>
    record.foldl
      (fun mapped kv =>
        match cm.lookup kv.1 with
        | some target =>
          if target = "" then setKey mapped kv.1 kv.2
          else setKey mapped target kv.2
        | none => setKey mapped kv.1 kv.2)
      []

/-- The key under which the custom-mapping loop stores a raw field named `k`:
its mapped target when the mapping holds a truthy (non-empty) target,
otherwise the original name (lines 322–328). -/
def mappedFieldName (cm : List (String × String)) (k : String) : String :=
  match cm.lookup k with
  | some target => if target = "" then k else target
  | none => k

/-- The per-issue loop body (lines 370–377): count errors and warnings, and
retain the issue only while fewer than `MAX_ISSUES_RETURNED` are stored. -/
def pushIssue (st : RunState) (issue : ValidationIssue) : RunState :=
  let st :=
    if issue.severity = Severity.error then { st with errorCount := st.errorCount + 1 } else st
  let st :=
    if issue.severity = Severity.warning then { st with warningCount := st.warningCount + 1 } else st
  if st.issues.length < MAX_ISSUES_RETURNED then { st with issues := st.issues ++ [issue] }
  else st

/-- Lines 332–356: detect raw issues and merge them into the preview map,
only on the first 10 rows. -/
def rawIssueStage (v : ValidatorModule) (mappedRecord : Obj) (row : Nat)
    (st : RunState) : RunState :=
  let newRawIssues := detectRawIssues mappedRecord v.fieldAliases v.fieldNormalizers
  if row ≤ 10 then
    { st with rawIssuesMap := addRawIssues st.rawIssuesMap newRawIssues }
  else st

/-- Lines 360–368: count the row as valid or invalid; a valid row's
normalized data is stored when requested, present, and under the cap. -/
def countStage (includeValidRecords : Bool) (result : RecordValidationResult)
    (st : RunState) : RunState :=
  if result.isValid then
    let st := { st with validRows := st.validRows + 1 }
    match result.data with
    | some d =>
      if includeValidRecords && st.validRecords.length < MAX_VALID_RECORDS_STORED then
        { st with validRecords := st.validRecords ++ [d] }
      else st
    | none => st
  else { st with invalidRows := st.invalidRows + 1 }

/-- Processing of one record (loop body lines 314–377, without the chunk
bookkeeping): apply the custom mapping, detect raw issues on the first 10
rows, validate, count the row as valid or invalid, then fold the issues. -/
def processRecord (v : ValidatorModule) (customMappings : Option (List (String × String)))
    (includeValidRecords : Bool) (record : Obj) (row : Nat) (st : RunState) : RunState :=
  let mappedRecord := applyCustomMappings customMappings record
  let st := rawIssueStage v mappedRecord row st
  let result := v.validateRecord mappedRecord row
  let st := countStage includeValidRecords result st
  result.issues.foldl pushIssue st

/-- A progress snapshot built from the current counters. -/
def progressSnap (totalRows processed : Nat) (st : RunState)
    (isComplete isCancelled : Bool) : ValidationProgress :=
  { totalRows := totalRows, processedRows := processed,
    validRows := st.validRows, invalidRows := st.invalidRows,
    errorCount := st.errorCount, warningCount := st.warningCount,
    isComplete := isComplete, isCancelled := isCancelled }

/-- Whether the abort signal is observed set at loop index `i`. -/
def aborted (cancelAt : Option Nat) (i : Nat) : Bool :=
  match cancelAt with
  | some k => decide (k ≤ i)
  | none => false

/-- The state part of one loop iteration at index `i`: record processing plus
the chunk bookkeeping (increment `processedInChunk`, reset it when it reaches
`chunkSize`). -/
def stepState (v : ValidatorModule) (customMappings : Option (List (String × String)))
    (includeValidRecords : Bool) (chunkSize : Nat)
    (record : Obj) (i : Nat) (st : RunState) : RunState :=
  let st1 := processRecord v customMappings includeValidRecords record (i + 1) st
  let st2 := { st1 with processedInChunk := st1.processedInChunk + 1 }
  if chunkSize ≤ st2.processedInChunk then { st2 with processedInChunk := 0 }
  else st2

/-- The snapshots emitted by the iteration at index `i`: a chunk-boundary
snapshot exactly when `processedInChunk` reaches `chunkSize` after this
record, taken over the post-record counters. -/
def stepEmit (v : ValidatorModule) (customMappings : Option (List (String × String)))
    (includeValidRecords : Bool) (chunkSize totalRows : Nat)
    (record : Obj) (i : Nat) (st : RunState) : List ValidationProgress :=
  let st1 := processRecord v customMappings includeValidRecords record (i + 1) st
  let st2 := { st1 with processedInChunk := st1.processedInChunk + 1 }
  if chunkSize ≤ st2.processedInChunk then [progressSnap totalRows (i + 1) st2 false false]
  else []

/-- The record loop of validateClient, returning the final state, the
snapshots emitted inside the loop (in emission order), and the index at which
a set abort signal stopped the loop (`none` when it ran to the end).  On
cancellation the source emits the cancellation snapshot and stops. -/
def runLoop (v : ValidatorModule) (customMappings : Option (List (String × String)))
    (includeValidRecords : Bool) (cancelAt : Option Nat) (chunkSize totalRows : Nat) :
    List Obj → Nat → RunState → RunState × List ValidationProgress × Option Nat
  | [], _, st => (st, [], none)
  | record :: rest, i, st =>
    if aborted cancelAt i then
      (st, [progressSnap totalRows i st false true], some i)
    else
      let out := runLoop v customMappings includeValidRecords cancelAt chunkSize totalRows
        rest (i + 1) (stepState v customMappings includeValidRecords chunkSize record i st)
      (out.1,
       stepEmit v customMappings includeValidRecords chunkSize totalRows record i st ++ out.2.1,
       out.2.2)

/-- The initial loop state: all counters zero, all buffers empty. -/
def initState : RunState :=
  { validRows := 0, invalidRows := 0, errorCount := 0, warningCount := 0,
    processedInChunk := 0, issues := [], validRecords := [], rawIssuesMap := [] }

/-- The initial progress snapshot (reported before the loop, all counters
zero). -/
def initialSnap (totalRows : Nat) : ValidationProgress :=
  { totalRows := totalRows, processedRows := 0, validRows := 0, invalidRows := 0,
    errorCount := 0, warningCount := 0, isComplete := false, isCancelled := false }

/-- `validateClient` (validate-client.ts lines 207–444), as a function of the
parsed record list; returns the result together with the emitted progress
snapshots.  On cancellation the result is unsuccessful with `truncated` set
to `true` and `validRecordsTruncated` to `false` unconditionally; on
completion the final snapshot is emitted and the two truncation flags are
computed from the counters. -/
def validateClient (v : ValidatorModule) (records : List Obj)
    (includeValidRecords : Bool) (customMappings : Option (List (String × String)))
    (cancelAt : Option Nat) (chunkSize : Nat) :
    ClientValidationResult × List ValidationProgress :=
  let totalRows := records.length
  let out := runLoop v customMappings includeValidRecords cancelAt chunkSize totalRows
    records 0 initState
  let st := out.1
  match out.2.2 with
  | some _ =>
    ({ success := false,
       summary := { totalRows := totalRows, validRows := st.validRows,
                    invalidRows := st.invalidRows, errorCount := st.errorCount,
                    warningCount := st.warningCount, issues := st.issues,
                    validRecords := if includeValidRecords then some st.validRecords else none },
       rawIssues := some (st.rawIssuesMap.map (fun p => p.2)),
       truncated := true,
       validRecordsTruncated := false },
     initialSnap totalRows :: out.2.1)
  | none =>
    let rawIssues := st.rawIssuesMap.map (fun p => p.2)
    ({ success := true,
       summary := { totalRows := totalRows, validRows := st.validRows,
                    invalidRows := st.invalidRows, errorCount := st.errorCount,
                    warningCount := st.warningCount, issues := st.issues,
                    validRecords := if includeValidRecords then some st.validRecords else none },
       rawIssues := if 0 < rawIssues.length then some rawIssues else none,
       truncated := decide (MAX_ISSUES_RETURNED < st.errorCount + st.warningCount),
       validRecordsTruncated :=
         includeValidRecords && decide (MAX_VALID_RECORDS_STORED < st.validRows) },
     initialSnap totalRows :: (out.2.1 ++ [progressSnap totalRows totalRows st true false]))

/-! ### preValidateClient (validate-client.ts lines 461–613) -/

/-- `PreValidationResult`. -/
structure PreValidationResult where
  totalRows : Nat
  analyzedRows : Nat
  validRows : Nat
  invalidRows : Nat
  rawIssues : List RawFeedIssue
deriving DecidableEq, Repr

/-- `PreValidationProgress`. -/
structure PreValidationProgress where
  totalRows : Nat
  processedRows : Nat
  validRows : Nat
  invalidRows : Nat
  isComplete : Bool
  isCancelled : Bool
deriving DecidableEq, Repr

/-- Mutable state of the preValidateClient loop. -/
structure PreState where
  validRows : Nat
  invalidRows : Nat
  processedInChunk : Nat
  rawIssuesMap : List (String × RawFeedIssue)
deriving DecidableEq, Repr

/-- The raw check used by preValidateClient:
`validator.validateRecordRaw ?? validator.validateRecord`. -/
def preCheckFn (v : ValidatorModule) : Obj → Nat → RecordValidationResult :=
  v.validateRecordRaw.getD v.validateRecord

/-- The state part of one preValidateClient iteration at index `i`: detect
raw issues on the first 20 rows, run the raw check on the raw record (no
custom mapping and no normalization is ever applied here), count validity,
and do the chunk bookkeeping. -/
def preStepState (v : ValidatorModule) (chunkSize : Nat)
    (record : Obj) (i : Nat) (st : PreState) : PreState :=
  let newRawIssues := detectRawIssues record v.fieldAliases v.fieldNormalizers
  let st :=
    if i + 1 ≤ 20 then
      { st with rawIssuesMap := addRawIssues st.rawIssuesMap newRawIssues }
    else st
  let result := preCheckFn v record (i + 1)
  let st :=
    if result.isValid then { st with validRows := st.validRows + 1 }
    else { st with invalidRows := st.invalidRows + 1 }
  let st := { st with processedInChunk := st.processedInChunk + 1 }
  if chunkSize ≤ st.processedInChunk then { st with processedInChunk := 0 }
  else st

/-- The snapshots emitted by the preValidateClient iteration at index `i`:
a chunk-boundary snapshot exactly when `processedInChunk` reaches
`chunkSize`. -/
def preStepEmit (v : ValidatorModule) (chunkSize totalRows : Nat)
    (record : Obj) (i : Nat) (st : PreState) : List PreValidationProgress :=
  let newRawIssues := detectRawIssues record v.fieldAliases v.fieldNormalizers
  let st :=
    if i + 1 ≤ 20 then
      { st with rawIssuesMap := addRawIssues st.rawIssuesMap newRawIssues }
    else st
  let result := preCheckFn v record (i + 1)
  let st :=
    if result.isValid then { st with validRows := st.validRows + 1 }
    else { st with invalidRows := st.invalidRows + 1 }
  let st := { st with processedInChunk := st.processedInChunk + 1 }
  if chunkSize ≤ st.processedInChunk then
    [{ totalRows := totalRows, processedRows := i + 1,
       validRows := st.validRows, invalidRows := st.invalidRows,
       isComplete := false, isCancelled := false }]
  else []

/-- The record loop of preValidateClient, returning the final state, the
snapshots emitted inside the loop, and the index at which a set abort signal
stopped it (the source then returns the partial result directly, without
emitting a cancellation snapshot). -/
def preRunLoop (v : ValidatorModule) (cancelAt : Option Nat) (chunkSize totalRows : Nat) :
    List Obj → Nat → PreState → PreState × List PreValidationProgress × Option Nat
  | [], _, st => (st, [], none)
  | record :: rest, i, st =>
    if aborted cancelAt i then (st, [], some i)
    else
      let out := preRunLoop v cancelAt chunkSize totalRows rest (i + 1)
        (preStepState v chunkSize record i st)
      (out.1, preStepEmit v chunkSize totalRows record i st ++ out.2.1, out.2.2)

/-- The initial preValidateClient state. -/
def preInitState : PreState :=
  { validRows := 0, invalidRows := 0, processedInChunk := 0, rawIssuesMap := [] }

/-- The initial preValidateClient progress snapshot. -/
def preInitialSnap (totalRows : Nat) : PreValidationProgress :=
  { totalRows := totalRows, processedRows := 0, validRows := 0, invalidRows := 0,
    isComplete := false, isCancelled := false }

/-- `preValidateClient` (validate-client.ts lines 489–613), as a function of
the parsed record list; returns the result together with the emitted progress
snapshots. -/
def preValidateClient (v : ValidatorModule) (records : List Obj)
    (cancelAt : Option Nat) (chunkSize : Nat) :
    PreValidationResult × List PreValidationProgress :=
  let totalRows := records.length
  let out := preRunLoop v cancelAt chunkSize totalRows records 0 preInitState
  let st := out.1
  match out.2.2 with
  | some i =>
    ({ totalRows := totalRows, analyzedRows := i, validRows := st.validRows,
       invalidRows := st.invalidRows,
       rawIssues := st.rawIssuesMap.map (fun p => p.2) },
     preInitialSnap totalRows :: out.2.1)
  | none =>
    let finalSnap : PreValidationProgress :=
      { totalRows := totalRows, processedRows := totalRows,
        validRows := st.validRows, invalidRows := st.invalidRows,
        isComplete := true, isCancelled := false }
    ({ totalRows := totalRows, analyzedRows := totalRows, validRows := st.validRows,
       invalidRows := st.invalidRows,
       rawIssues := st.rawIssuesMap.map (fun p => p.2) },
     preInitialSnap totalRows :: (out.2.1 ++ [finalSnap]))

/-- A concrete validator module that accepts every record unchanged, used as
an input value by witnesses and counterexamples. -/
def constValidValidator : ValidatorModule :=
  { fieldAliases := []
    fieldNormalizers := []
    defaultValues := none
    validateRecord := fun record row =>
      { row := row, isValid := true, issues := [], data := some record }
    validateRecordRaw := none }

/-- A concrete one-rule schema check (the record must define a title), used
as an input value by witnesses: it fails with exactly one issue. -/
def requireTitleParse (record : Obj) : OpenAI.ZodParseResult :=
  if record.lookup "title" = none then
    OpenAI.ZodParseResult.failure [{ path := ["title"], message := "Required" }]
  else OpenAI.ZodParseResult.success record

/-! ## Supporting lemmas -/

theorem lookup_append_of_ne_none {α : Type} (m rest : List (String × α)) (k : String)
    (h : m.lookup k = none) : (m ++ rest).lookup k = rest.lookup k := by
  induction m with
  | nil => rfl
  | cons p t ih =>
    rcases p with ⟨k1, v1⟩
    rcases hbe : k == k1 with _ | _
    · simp only [List.lookup_cons, hbe] at h
      simpa only [List.cons_append, List.lookup_cons, hbe] using ih h
    · simp only [List.lookup_cons, hbe] at h
      exact Option.noConfusion h

theorem lookup_map_setEntry {α : Type} (m : List (String × α)) (k k' : String) (v : α)
    (hne : k' ≠ k) :
    (m.map (fun p => if p.1 = k then (k, v) else p)).lookup k' = m.lookup k' := by
  induction m with
  | nil => rfl
  | cons p t ih =>
    rcases p with ⟨k1, v1⟩
    by_cases hk : k1 = k
    · subst hk
      have hbe : (k' == k1) = false := beq_eq_false_iff_ne.mpr hne
      simp [List.lookup_cons, hbe, ih]
    · rcases hbe : k' == k1 with _ | _
      · simp [List.lookup_cons, hbe, hk, ih]
      · simp [List.lookup_cons, hbe, hk]

theorem lookup_map_setEntry_self {α : Type} (m : List (String × α)) (k : String) (v : α)
    (h : (m.lookup k).isSome) :
    (m.map (fun p => if p.1 = k then (k, v) else p)).lookup k = some v := by
  induction m with
  | nil => simp [List.lookup] at h
  | cons p t ih =>
    rcases p with ⟨k1, v1⟩
    by_cases hk : k1 = k
    · subst hk
      simp [List.lookup_cons]
    · have hbe : (k == k1) = false := beq_eq_false_iff_ne.mpr (fun hh => hk hh.symm)
      simp only [List.lookup_cons, hbe] at h
      simp [List.lookup_cons, hbe, hk, ih h]

/-- Looking up the assigned key after a JS assignment yields the assigned
value. -/
theorem lookup_setKey_self {α : Type} (m : List (String × α)) (k : String) (v : α) :
    (setKey m k v).lookup k = some v := by
  rcases hh : m.lookup k with _ | w
  · rw [setKey]
    rw [if_neg (by simp [hh])]
    rw [lookup_append_of_ne_none m _ k hh]
    simp [List.lookup_cons]
  · rw [setKey]
    rw [if_pos (by simp [hh])]
    exact lookup_map_setEntry_self m k v (by simp [hh])

/-- A JS assignment leaves every other key unchanged. -/
theorem lookup_setKey_ne {α : Type} (m : List (String × α)) (k k' : String) (v : α)
    (hne : k' ≠ k) : (setKey m k v).lookup k' = m.lookup k' := by
  rcases hh : m.lookup k with _ | w
  · rw [setKey]
    rw [if_neg (by simp [hh])]
    have hbe : (k' == k) = false := beq_eq_false_iff_ne.mpr hne
    induction m with
    | nil => simp [List.lookup, List.lookup_cons, hbe]
    | cons p t ih =>
      rcases p with ⟨k1, v1⟩
      rcases hbe1 : k' == k1 with _ | _
      · simp only [List.cons_append, List.lookup_cons, hbe1]
        rcases hbe2 : k == k1 with _ | _
        · exact ih (by simpa only [List.lookup_cons, hbe2] using hh)
        · simp only [List.lookup_cons, hbe2] at hh
          exact Option.noConfusion hh
      · simp only [List.cons_append, List.lookup_cons, hbe1]
  · rw [setKey]
    rw [if_pos (by simp [hh])]
    exact lookup_map_setEntry m k k' v hne

theorem setKey_length_ge {α : Type} (m : List (String × α)) (k : String) (v : α) :
    m.length ≤ (setKey m k v).length := by
  unfold setKey
  by_cases h : (m.lookup k).isSome <;> simp [h]

/-- Generic preservation of an invariant along a left fold. -/
theorem foldl_invariant {σ α : Type} (f : σ → α → σ) (P : σ → Prop)
    (h : ∀ s a, P s → P (f s a)) :
    ∀ (l : List α) (s : σ), P s → P (l.foldl f s) := by
  intro l
  induction l with
  | nil => intro s hs; simpa using hs
  | cons a t ih =>
    intro s hs
    simpa using ih (f s a) (h s a hs)

/-- Preservation of an invariant along a left fold, where the step only needs
to preserve it for elements of the list. -/
theorem getLast?_cons_append_singleton {α : Type} (a : α) (l : List α) (b : α) :
    (a :: (l ++ [b])).getLast? = some b := by
  rw [show a :: (l ++ [b]) = (a :: l) ++ [b] from rfl, List.getLast?_concat]

theorem foldl_invariant_mem {σ α : Type} (f : σ → α → σ) (P : σ → Prop) :
    ∀ (l : List α) (s : σ), (∀ s' a, a ∈ l → P s' → P (f s' a)) → P s → P (l.foldl f s) := by
  intro l
  induction l with
  | nil => intro s _ hs; simpa using hs
  | cons a t ih =>
    intro s h hs
    simpa using ih (f s a) (fun s' b hb => h s' b (List.mem_cons_of_mem a hb))
      (h s a (List.mem_cons_self a t) hs)

/-! ### pushIssue characterization -/

theorem pushIssue_issues (st : RunState) (issue : ValidationIssue) :
    (pushIssue st issue).issues =
      if st.issues.length < MAX_ISSUES_RETURNED then st.issues ++ [issue] else st.issues := by
  by_cases hE : issue.severity = Severity.error <;>
    by_cases hW : issue.severity = Severity.warning
  · rw [hE] at hW; exact absurd hW (by decide)
  all_goals
    unfold pushIssue
    simp [hE, hW]
    try (split <;> rfl)

theorem pushIssue_errorCount (st : RunState) (issue : ValidationIssue) :
    (pushIssue st issue).errorCount =
      if issue.severity = Severity.error then st.errorCount + 1 else st.errorCount := by
  by_cases hE : issue.severity = Severity.error <;>
    by_cases hW : issue.severity = Severity.warning
  · rw [hE] at hW; exact absurd hW (by decide)
  all_goals
    unfold pushIssue
    simp [hE, hW]
    try (split <;> rfl)

theorem pushIssue_warningCount (st : RunState) (issue : ValidationIssue) :
    (pushIssue st issue).warningCount =
      if issue.severity = Severity.warning then st.warningCount + 1 else st.warningCount := by
  by_cases hE : issue.severity = Severity.error <;>
    by_cases hW : issue.severity = Severity.warning
  · rw [hE] at hW; exact absurd hW (by decide)
  all_goals
    unfold pushIssue
    simp [hE, hW]
    try (split <;> rfl)

theorem pushIssue_validRows (st : RunState) (issue : ValidationIssue) :
    (pushIssue st issue).validRows = st.validRows := by
  by_cases hE : issue.severity = Severity.error <;>
    by_cases hW : issue.severity = Severity.warning
  · rw [hE] at hW; exact absurd hW (by decide)
  all_goals
    unfold pushIssue
    simp [hE, hW]
    try (split <;> rfl)

theorem pushIssue_invalidRows (st : RunState) (issue : ValidationIssue) :
    (pushIssue st issue).invalidRows = st.invalidRows := by
  by_cases hE : issue.severity = Severity.error <;>
    by_cases hW : issue.severity = Severity.warning
  · rw [hE] at hW; exact absurd hW (by decide)
  all_goals
    unfold pushIssue
    simp [hE, hW]
    try (split <;> rfl)

theorem pushIssue_processedInChunk (st : RunState) (issue : ValidationIssue) :
    (pushIssue st issue).processedInChunk = st.processedInChunk := by
  by_cases hE : issue.severity = Severity.error <;>
    by_cases hW : issue.severity = Severity.warning
  · rw [hE] at hW; exact absurd hW (by decide)
  all_goals
    unfold pushIssue
    simp [hE, hW]
    try (split <;> rfl)

theorem pushIssue_validRecords (st : RunState) (issue : ValidationIssue) :
    (pushIssue st issue).validRecords = st.validRecords := by
  by_cases hE : issue.severity = Severity.error <;>
    by_cases hW : issue.severity = Severity.warning
  · rw [hE] at hW; exact absurd hW (by decide)
  all_goals
    unfold pushIssue
    simp [hE, hW]
    try (split <;> rfl)

theorem pushIssue_rawIssuesMap (st : RunState) (issue : ValidationIssue) :
    (pushIssue st issue).rawIssuesMap = st.rawIssuesMap := by
  by_cases hE : issue.severity = Severity.error <;>
    by_cases hW : issue.severity = Severity.warning
  · rw [hE] at hW; exact absurd hW (by decide)
  all_goals
    unfold pushIssue
    simp [hE, hW]
    try (split <;> rfl)

theorem foldl_pushIssue_validRows (l : List ValidationIssue) (st : RunState) :
    (l.foldl pushIssue st).validRows = st.validRows :=
  foldl_invariant pushIssue (fun s => s.validRows = st.validRows)
    (fun s a h => by show (pushIssue s a).validRows = st.validRows; rw [pushIssue_validRows]; exact h) l st rfl

theorem foldl_pushIssue_invalidRows (l : List ValidationIssue) (st : RunState) :
    (l.foldl pushIssue st).invalidRows = st.invalidRows :=
  foldl_invariant pushIssue (fun s => s.invalidRows = st.invalidRows)
    (fun s a h => by show (pushIssue s a).invalidRows = st.invalidRows; rw [pushIssue_invalidRows]; exact h) l st rfl

theorem foldl_pushIssue_processedInChunk (l : List ValidationIssue) (st : RunState) :
    (l.foldl pushIssue st).processedInChunk = st.processedInChunk :=
  foldl_invariant pushIssue (fun s => s.processedInChunk = st.processedInChunk)
    (fun s a h => by show (pushIssue s a).processedInChunk = st.processedInChunk; rw [pushIssue_processedInChunk]; exact h) l st rfl

theorem foldl_pushIssue_validRecords (l : List ValidationIssue) (st : RunState) :
    (l.foldl pushIssue st).validRecords = st.validRecords :=
  foldl_invariant pushIssue (fun s => s.validRecords = st.validRecords)
    (fun s a h => by show (pushIssue s a).validRecords = st.validRecords; rw [pushIssue_validRecords]; exact h) l st rfl

theorem foldl_pushIssue_rawIssuesMap (l : List ValidationIssue) (st : RunState) :
    (l.foldl pushIssue st).rawIssuesMap = st.rawIssuesMap :=
  foldl_invariant pushIssue (fun s => s.rawIssuesMap = st.rawIssuesMap)
    (fun s a h => by show (pushIssue s a).rawIssuesMap = st.rawIssuesMap; rw [pushIssue_rawIssuesMap]; exact h) l st rfl

theorem foldl_pushIssue_issues_le (l : List ValidationIssue) (st : RunState)
    (h : st.issues.length ≤ MAX_ISSUES_RETURNED) :
    (l.foldl pushIssue st).issues.length ≤ MAX_ISSUES_RETURNED := by
  refine foldl_invariant pushIssue (fun s => s.issues.length ≤ MAX_ISSUES_RETURNED)
    (fun s a hs => ?_) l st h
  show (pushIssue s a).issues.length ≤ MAX_ISSUES_RETURNED
  rw [pushIssue_issues]
  split
  · simp only [List.length_append, List.length_singleton]
    omega
  · exact hs

/-! ### rawIssueStage, countStage and addRawIssue characterizations -/

theorem rawIssueStage_validRows (v : ValidatorModule) (r : Obj) (row : Nat) (st : RunState) :
    (rawIssueStage v r row st).validRows = st.validRows := by
  by_cases h : row ≤ 10 <;> simp [rawIssueStage, h]

theorem rawIssueStage_invalidRows (v : ValidatorModule) (r : Obj) (row : Nat) (st : RunState) :
    (rawIssueStage v r row st).invalidRows = st.invalidRows := by
  by_cases h : row ≤ 10 <;> simp [rawIssueStage, h]

theorem rawIssueStage_errorCount (v : ValidatorModule) (r : Obj) (row : Nat) (st : RunState) :
    (rawIssueStage v r row st).errorCount = st.errorCount := by
  by_cases h : row ≤ 10 <;> simp [rawIssueStage, h]

theorem rawIssueStage_warningCount (v : ValidatorModule) (r : Obj) (row : Nat) (st : RunState) :
    (rawIssueStage v r row st).warningCount = st.warningCount := by
  by_cases h : row ≤ 10 <;> simp [rawIssueStage, h]

theorem rawIssueStage_processedInChunk (v : ValidatorModule) (r : Obj) (row : Nat) (st : RunState) :
    (rawIssueStage v r row st).processedInChunk = st.processedInChunk := by
  by_cases h : row ≤ 10 <;> simp [rawIssueStage, h]

theorem rawIssueStage_issues (v : ValidatorModule) (r : Obj) (row : Nat) (st : RunState) :
    (rawIssueStage v r row st).issues = st.issues := by
  by_cases h : row ≤ 10 <;> simp [rawIssueStage, h]

theorem rawIssueStage_validRecords (v : ValidatorModule) (r : Obj) (row : Nat) (st : RunState) :
    (rawIssueStage v r row st).validRecords = st.validRecords := by
  by_cases h : row ≤ 10 <;> simp [rawIssueStage, h]

theorem rawIssueStage_rawIssuesMap (v : ValidatorModule) (r : Obj) (row : Nat) (st : RunState) :
    (rawIssueStage v r row st).rawIssuesMap =
      if row ≤ 10 then
        addRawIssues st.rawIssuesMap (detectRawIssues r v.fieldAliases v.fieldNormalizers)
      else st.rawIssuesMap := by
  by_cases h : row ≤ 10 <;> simp [rawIssueStage, h]

theorem countStage_validRows (inc : Bool) (result : RecordValidationResult) (st : RunState) :
    (countStage inc result st).validRows =
      st.validRows + (if result.isValid then 1 else 0) := by
  rcases hval : result.isValid with _ | _ <;>
    rcases hdata : result.data with _ | d <;>
      simp [countStage, hval, hdata] <;> split <;> rfl

theorem countStage_invalidRows (inc : Bool) (result : RecordValidationResult) (st : RunState) :
    (countStage inc result st).invalidRows =
      st.invalidRows + (if result.isValid then 0 else 1) := by
  rcases hval : result.isValid with _ | _ <;>
    rcases hdata : result.data with _ | d <;>
      simp [countStage, hval, hdata] <;> split <;> rfl

theorem countStage_errorCount (inc : Bool) (result : RecordValidationResult) (st : RunState) :
    (countStage inc result st).errorCount = st.errorCount := by
  rcases hval : result.isValid with _ | _ <;>
    rcases hdata : result.data with _ | d <;>
      simp [countStage, hval, hdata] <;> split <;> rfl

theorem countStage_warningCount (inc : Bool) (result : RecordValidationResult) (st : RunState) :
    (countStage inc result st).warningCount = st.warningCount := by
  rcases hval : result.isValid with _ | _ <;>
    rcases hdata : result.data with _ | d <;>
      simp [countStage, hval, hdata] <;> split <;> rfl

theorem countStage_processedInChunk (inc : Bool) (result : RecordValidationResult) (st : RunState) :
    (countStage inc result st).processedInChunk = st.processedInChunk := by
  rcases hval : result.isValid with _ | _ <;>
    rcases hdata : result.data with _ | d <;>
      simp [countStage, hval, hdata] <;> split <;> rfl

theorem countStage_issues (inc : Bool) (result : RecordValidationResult) (st : RunState) :
    (countStage inc result st).issues = st.issues := by
  rcases hval : result.isValid with _ | _ <;>
    rcases hdata : result.data with _ | d <;>
      simp [countStage, hval, hdata] <;> split <;> rfl

theorem countStage_rawIssuesMap (inc : Bool) (result : RecordValidationResult) (st : RunState) :
    (countStage inc result st).rawIssuesMap = st.rawIssuesMap := by
  rcases hval : result.isValid with _ | _ <;>
    rcases hdata : result.data with _ | d <;>
      simp [countStage, hval, hdata] <;> split <;> rfl

theorem countStage_validRecords_le (inc : Bool) (result : RecordValidationResult) (st : RunState)
    (h : st.validRecords.length ≤ MAX_VALID_RECORDS_STORED) :
    (countStage inc result st).validRecords.length ≤ MAX_VALID_RECORDS_STORED := by
  rcases hval : result.isValid with _ | _ <;>
    rcases hdata : result.data with _ | d <;>
      simp [countStage, hval, hdata]
  all_goals try exact h
  split
  · rename_i hlt
    simp only [List.length_append, List.length_singleton]
    omega
  · exact h

/-- Under full retention (`includeValidRecords = true`) and a validator that
always supplies data for valid records, the stored-record count is the valid
count clipped at the cap. -/
theorem countStage_validRecords_min (result : RecordValidationResult) (st : RunState)
    (hdata : result.isValid = true → result.data.isSome)
    (h : st.validRecords.length = min st.validRows MAX_VALID_RECORDS_STORED) :
    (countStage true result st).validRecords.length =
      min (countStage true result st).validRows MAX_VALID_RECORDS_STORED := by
  rw [countStage_validRows]
  rcases hval : result.isValid with _ | _
  · rcases hd : result.data with _ | d
    · simp [countStage, hval, hd, h]
    · simp [countStage, hval, hd, h]
  · rcases hd : result.data with _ | d
    · exact absurd (hdata hval) (by simp [hd])
    · simp only [countStage, hval, if_true, hd]
      unfold MAX_VALID_RECORDS_STORED at *
      split
      · rename_i hlt
        simp only [List.length_append, List.length_singleton]
        simp only [Bool.true_and, decide_eq_true_eq] at hlt
        omega
      · rename_i hlt
        simp only [Bool.true_and, decide_eq_true_eq, Nat.not_lt] at hlt
        simp only [h] at hlt ⊢
        omega

theorem addRawIssue_length_le (m : List (String × RawFeedIssue)) (issue : RawIssue)
    (h : m.length ≤ MAX_RAW_ISSUES_PREVIEW) :
    (addRawIssue m issue).length ≤ MAX_RAW_ISSUES_PREVIEW := by
  unfold addRawIssue
  rcases hl : m.lookup (issue.field ++ ":" ++ issue.problem) with _ | e
  · simp only [hl]
    split
    · rename_i hlt
      simp only [List.length_append, List.length_singleton]
      unfold MAX_RAW_ISSUES_PREVIEW at *
      omega
    · exact h
  · simpa only [hl, List.length_map] using h

theorem addRawIssues_length_le (l : List RawIssue) (m : List (String × RawFeedIssue))
    (h : m.length ≤ MAX_RAW_ISSUES_PREVIEW) :
    (addRawIssues m l).length ≤ MAX_RAW_ISSUES_PREVIEW :=
  foldl_invariant addRawIssue (fun m' => m'.length ≤ MAX_RAW_ISSUES_PREVIEW)
    (fun m' a hm => addRawIssue_length_le m' a hm) l m h

/-! ### processRecord characterizations -/

theorem processRecord_validRows (v : ValidatorModule)
    (cm : Option (List (String × String))) (inc : Bool) (r : Obj) (row : Nat) (st : RunState) :
    (processRecord v cm inc r row st).validRows =
      st.validRows +
        (if (v.validateRecord (applyCustomMappings cm r) row).isValid then 1 else 0) := by
  unfold processRecord
  rw [foldl_pushIssue_validRows, countStage_validRows, rawIssueStage_validRows]

theorem processRecord_invalidRows (v : ValidatorModule)
    (cm : Option (List (String × String))) (inc : Bool) (r : Obj) (row : Nat) (st : RunState) :
    (processRecord v cm inc r row st).invalidRows =
      st.invalidRows +
        (if (v.validateRecord (applyCustomMappings cm r) row).isValid then 0 else 1) := by
  unfold processRecord
  rw [foldl_pushIssue_invalidRows, countStage_invalidRows, rawIssueStage_invalidRows]

theorem processRecord_counterSum (v : ValidatorModule)
    (cm : Option (List (String × String))) (inc : Bool) (r : Obj) (row : Nat) (st : RunState) :
    (processRecord v cm inc r row st).validRows + (processRecord v cm inc r row st).invalidRows =
      st.validRows + st.invalidRows + 1 := by
  rw [processRecord_validRows, processRecord_invalidRows]
  split <;> omega

theorem processRecord_processedInChunk (v : ValidatorModule)
    (cm : Option (List (String × String))) (inc : Bool) (r : Obj) (row : Nat) (st : RunState) :
    (processRecord v cm inc r row st).processedInChunk = st.processedInChunk := by
  unfold processRecord
  rw [foldl_pushIssue_processedInChunk, countStage_processedInChunk,
    rawIssueStage_processedInChunk]

theorem processRecord_rawIssuesMap (v : ValidatorModule)
    (cm : Option (List (String × String))) (inc : Bool) (r : Obj) (row : Nat) (st : RunState) :
    (processRecord v cm inc r row st).rawIssuesMap =
      if row ≤ 10 then
        addRawIssues st.rawIssuesMap
          (detectRawIssues (applyCustomMappings cm r) v.fieldAliases v.fieldNormalizers)
      else st.rawIssuesMap := by
  unfold processRecord
  rw [foldl_pushIssue_rawIssuesMap, countStage_rawIssuesMap, rawIssueStage_rawIssuesMap]

theorem processRecord_issues_le (v : ValidatorModule)
    (cm : Option (List (String × String))) (inc : Bool) (r : Obj) (row : Nat) (st : RunState)
    (h : st.issues.length ≤ MAX_ISSUES_RETURNED) :
    (processRecord v cm inc r row st).issues.length ≤ MAX_ISSUES_RETURNED := by
  unfold processRecord
  apply foldl_pushIssue_issues_le
  rw [countStage_issues, rawIssueStage_issues]
  exact h

theorem processRecord_validRecords_le (v : ValidatorModule)
    (cm : Option (List (String × String))) (inc : Bool) (r : Obj) (row : Nat) (st : RunState)
    (h : st.validRecords.length ≤ MAX_VALID_RECORDS_STORED) :
    (processRecord v cm inc r row st).validRecords.length ≤ MAX_VALID_RECORDS_STORED := by
  unfold processRecord
  rw [foldl_pushIssue_validRecords]
  apply countStage_validRecords_le
  rw [rawIssueStage_validRecords]
  exact h

theorem processRecord_rawIssuesMap_le (v : ValidatorModule)
    (cm : Option (List (String × String))) (inc : Bool) (r : Obj) (row : Nat) (st : RunState)
    (h : st.rawIssuesMap.length ≤ MAX_RAW_ISSUES_PREVIEW) :
    (processRecord v cm inc r row st).rawIssuesMap.length ≤ MAX_RAW_ISSUES_PREVIEW := by
  rw [processRecord_rawIssuesMap]
  split
  · exact addRawIssues_length_le _ _ h
  · exact h

/-- Retained-issue count stays the clipped error-plus-warning count as long as
every issue of the processed record has error or warning severity. -/
theorem pushIssue_min_inv (st : RunState) (issue : ValidationIssue)
    (hsev : issue.severity = Severity.error ∨ issue.severity = Severity.warning)
    (h : st.issues.length = min (st.errorCount + st.warningCount) MAX_ISSUES_RETURNED) :
    (pushIssue st issue).issues.length =
      min ((pushIssue st issue).errorCount + (pushIssue st issue).warningCount)
        MAX_ISSUES_RETURNED := by
  rw [pushIssue_issues, pushIssue_errorCount, pushIssue_warningCount]
  rcases hsev with hs | hs
  · rw [if_pos hs, if_neg (show ¬ issue.severity = Severity.warning by rw [hs]; decide)]
    by_cases hlt : st.issues.length < MAX_ISSUES_RETURNED
    · rw [if_pos hlt]
      simp only [List.length_append, List.length_singleton]
      unfold MAX_ISSUES_RETURNED at *
      omega
    · rw [if_neg hlt]
      unfold MAX_ISSUES_RETURNED at *
      omega
  · rw [if_pos hs, if_neg (show ¬ issue.severity = Severity.error by rw [hs]; decide)]
    by_cases hlt : st.issues.length < MAX_ISSUES_RETURNED
    · rw [if_pos hlt]
      simp only [List.length_append, List.length_singleton]
      unfold MAX_ISSUES_RETURNED at *
      omega
    · rw [if_neg hlt]
      unfold MAX_ISSUES_RETURNED at *
      omega

theorem processRecord_issues_min (v : ValidatorModule)
    (cm : Option (List (String × String))) (inc : Bool) (r : Obj) (row : Nat) (st : RunState)
    (hsev : ∀ issue ∈ (v.validateRecord (applyCustomMappings cm r) row).issues,
      issue.severity = Severity.error ∨ issue.severity = Severity.warning)
    (h : st.issues.length = min (st.errorCount + st.warningCount) MAX_ISSUES_RETURNED) :
    (processRecord v cm inc r row st).issues.length =
      min ((processRecord v cm inc r row st).errorCount +
        (processRecord v cm inc r row st).warningCount) MAX_ISSUES_RETURNED := by
  unfold processRecord
  refine foldl_invariant_mem pushIssue
    (fun s => s.issues.length = min (s.errorCount + s.warningCount) MAX_ISSUES_RETURNED)
    _ _ (fun s' a ha hp => pushIssue_min_inv s' a (hsev a ha) hp) ?_
  show (countStage inc (v.validateRecord (applyCustomMappings cm r) row)
      (rawIssueStage v (applyCustomMappings cm r) row st)).issues.length =
    min ((countStage inc (v.validateRecord (applyCustomMappings cm r) row)
      (rawIssueStage v (applyCustomMappings cm r) row st)).errorCount +
      (countStage inc (v.validateRecord (applyCustomMappings cm r) row)
        (rawIssueStage v (applyCustomMappings cm r) row st)).warningCount) MAX_ISSUES_RETURNED
  rw [countStage_issues, rawIssueStage_issues, countStage_errorCount, rawIssueStage_errorCount,
    countStage_warningCount, rawIssueStage_warningCount]
  exact h

theorem processRecord_validRecords_min (v : ValidatorModule)
    (cm : Option (List (String × String))) (r : Obj) (row : Nat) (st : RunState)
    (hdata : (v.validateRecord (applyCustomMappings cm r) row).isValid = true →
      ((v.validateRecord (applyCustomMappings cm r) row).data).isSome)
    (h : st.validRecords.length = min st.validRows MAX_VALID_RECORDS_STORED) :
    (processRecord v cm true r row st).validRecords.length =
      min (processRecord v cm true r row st).validRows MAX_VALID_RECORDS_STORED := by
  unfold processRecord
  rw [foldl_pushIssue_validRecords, foldl_pushIssue_validRows]
  apply countStage_validRecords_min _ _ hdata
  rw [rawIssueStage_validRecords, rawIssueStage_validRows]
  exact h

/-! ### stepState, stepEmit and runLoop lemmas -/

theorem stepState_validRows (v : ValidatorModule) (cm : Option (List (String × String)))
    (inc : Bool) (cs : Nat) (r : Obj) (i : Nat) (st : RunState) :
    (stepState v cm inc cs r i st).validRows = (processRecord v cm inc r (i + 1) st).validRows := by
  unfold stepState
  by_cases hc : cs ≤ (processRecord v cm inc r (i + 1) st).processedInChunk + 1 <;> simp [hc]

theorem stepState_invalidRows (v : ValidatorModule) (cm : Option (List (String × String)))
    (inc : Bool) (cs : Nat) (r : Obj) (i : Nat) (st : RunState) :
    (stepState v cm inc cs r i st).invalidRows = (processRecord v cm inc r (i + 1) st).invalidRows := by
  unfold stepState
  by_cases hc : cs ≤ (processRecord v cm inc r (i + 1) st).processedInChunk + 1 <;> simp [hc]

theorem stepState_errorCount (v : ValidatorModule) (cm : Option (List (String × String)))
    (inc : Bool) (cs : Nat) (r : Obj) (i : Nat) (st : RunState) :
    (stepState v cm inc cs r i st).errorCount = (processRecord v cm inc r (i + 1) st).errorCount := by
  unfold stepState
  by_cases hc : cs ≤ (processRecord v cm inc r (i + 1) st).processedInChunk + 1 <;> simp [hc]

theorem stepState_warningCount (v : ValidatorModule) (cm : Option (List (String × String)))
    (inc : Bool) (cs : Nat) (r : Obj) (i : Nat) (st : RunState) :
    (stepState v cm inc cs r i st).warningCount = (processRecord v cm inc r (i + 1) st).warningCount := by
  unfold stepState
  by_cases hc : cs ≤ (processRecord v cm inc r (i + 1) st).processedInChunk + 1 <;> simp [hc]

theorem stepState_issues (v : ValidatorModule) (cm : Option (List (String × String)))
    (inc : Bool) (cs : Nat) (r : Obj) (i : Nat) (st : RunState) :
    (stepState v cm inc cs r i st).issues = (processRecord v cm inc r (i + 1) st).issues := by
  unfold stepState
  by_cases hc : cs ≤ (processRecord v cm inc r (i + 1) st).processedInChunk + 1 <;> simp [hc]

theorem stepState_validRecords (v : ValidatorModule) (cm : Option (List (String × String)))
    (inc : Bool) (cs : Nat) (r : Obj) (i : Nat) (st : RunState) :
    (stepState v cm inc cs r i st).validRecords = (processRecord v cm inc r (i + 1) st).validRecords := by
  unfold stepState
  by_cases hc : cs ≤ (processRecord v cm inc r (i + 1) st).processedInChunk + 1 <;> simp [hc]

theorem stepState_rawIssuesMap (v : ValidatorModule) (cm : Option (List (String × String)))
    (inc : Bool) (cs : Nat) (r : Obj) (i : Nat) (st : RunState) :
    (stepState v cm inc cs r i st).rawIssuesMap = (processRecord v cm inc r (i + 1) st).rawIssuesMap := by
  unfold stepState
  by_cases hc : cs ≤ (processRecord v cm inc r (i + 1) st).processedInChunk + 1 <;> simp [hc]

/-- Every snapshot emitted by a loop iteration is the chunk-boundary snapshot
over the post-record counters. -/
theorem stepEmit_mem (v : ValidatorModule) (cm : Option (List (String × String)))
    (inc : Bool) (cs tR : Nat) (r : Obj) (i : Nat) (st : RunState) (p : ValidationProgress)
    (hp : p ∈ stepEmit v cm inc cs tR r i st) :
    p = progressSnap tR (i + 1) (processRecord v cm inc r (i + 1) st) false false := by
  unfold stepEmit at hp
  by_cases hc : cs ≤ (processRecord v cm inc r (i + 1) st).processedInChunk + 1 <;>
    simp [hc, progressSnap] at hp
  · simp [hp, progressSnap]

theorem runLoop_nil (v : ValidatorModule) (cm : Option (List (String × String)))
    (inc : Bool) (cA : Option Nat) (cs tR i : Nat) (st : RunState) :
    runLoop v cm inc cA cs tR [] i st = (st, [], none) := rfl

theorem runLoop_cons (v : ValidatorModule) (cm : Option (List (String × String)))
    (inc : Bool) (cA : Option Nat) (cs tR : Nat) (r : Obj) (rest : List Obj) (i : Nat)
    (st : RunState) :
    runLoop v cm inc cA cs tR (r :: rest) i st =
      if aborted cA i then (st, [progressSnap tR i st false true], some i)
      else
        ((runLoop v cm inc cA cs tR rest (i + 1) (stepState v cm inc cs r i st)).1,
         stepEmit v cm inc cs tR r i st ++
           (runLoop v cm inc cA cs tR rest (i + 1) (stepState v cm inc cs r i st)).2.1,
         (runLoop v cm inc cA cs tR rest (i + 1) (stepState v cm inc cs r i st)).2.2) := rfl

/-- Counter soundness of the loop: every emitted snapshot has
`validRows + invalidRows = processedRows`, and the final counters sum to the
number of records processed. -/
theorem runLoop_counterSum (v : ValidatorModule) (cm : Option (List (String × String)))
    (inc : Bool) (cA : Option Nat) (cs tR : Nat) :
    ∀ (rest : List Obj) (i : Nat) (st : RunState),
      st.validRows + st.invalidRows = i →
      (∀ p ∈ (runLoop v cm inc cA cs tR rest i st).2.1,
          p.validRows + p.invalidRows = p.processedRows) ∧
      ((runLoop v cm inc cA cs tR rest i st).1.validRows +
        (runLoop v cm inc cA cs tR rest i st).1.invalidRows =
        match (runLoop v cm inc cA cs tR rest i st).2.2 with
        | some k => k
        | none => i + rest.length) := by
  intro rest
  induction rest with
  | nil =>
    intro i st hsum
    refine ⟨?_, ?_⟩
    · intro p hp
      rw [runLoop_nil] at hp
      exact absurd hp (List.not_mem_nil p)
    · rw [runLoop_nil]
      simpa using hsum
  | cons r rest ih =>
    intro i st hsum
    rw [runLoop_cons]
    by_cases hab : aborted cA i
    · rw [if_pos hab]
      refine ⟨?_, by simpa using hsum⟩
      intro p hp
      simp only [List.mem_singleton] at hp
      subst hp
      simpa [progressSnap] using hsum
    · rw [if_neg hab]
      have hstep : (stepState v cm inc cs r i st).validRows +
          (stepState v cm inc cs r i st).invalidRows = i + 1 := by
        rw [stepState_validRows, stepState_invalidRows, processRecord_counterSum, hsum]
      obtain ⟨hmem, hcount⟩ := ih (i + 1) (stepState v cm inc cs r i st) hstep
      refine ⟨?_, ?_⟩
      · intro p hp
        simp only [List.mem_append] at hp
        rcases hp with hp | hp
        · rw [stepEmit_mem v cm inc cs tR r i st p hp]
          simpa [progressSnap] using
            (by rw [processRecord_counterSum, hsum] :
              (processRecord v cm inc r (i + 1) st).validRows +
                (processRecord v cm inc r (i + 1) st).invalidRows = i + 1)
        · exact hmem p hp
      · rcases hc : (runLoop v cm inc cA cs tR rest (i + 1)
            (stepState v cm inc cs r i st)).2.2 with _ | k
        · rw [hc] at hcount
          simpa [List.length_cons, Nat.add_comm, Nat.add_assoc, Nat.add_left_comm]
            using hcount
        · rw [hc] at hcount
          simpa using hcount

/-- Cap soundness of the loop: the three retained buffers stay within their
caps. -/
theorem runLoop_caps (v : ValidatorModule) (cm : Option (List (String × String)))
    (inc : Bool) (cA : Option Nat) (cs tR : Nat) :
    ∀ (rest : List Obj) (i : Nat) (st : RunState),
      st.issues.length ≤ MAX_ISSUES_RETURNED →
      st.validRecords.length ≤ MAX_VALID_RECORDS_STORED →
      st.rawIssuesMap.length ≤ MAX_RAW_ISSUES_PREVIEW →
      (runLoop v cm inc cA cs tR rest i st).1.issues.length ≤ MAX_ISSUES_RETURNED ∧
      (runLoop v cm inc cA cs tR rest i st).1.validRecords.length ≤ MAX_VALID_RECORDS_STORED ∧
      (runLoop v cm inc cA cs tR rest i st).1.rawIssuesMap.length ≤ MAX_RAW_ISSUES_PREVIEW := by
  intro rest
  induction rest with
  | nil =>
    intro i st h1 h2 h3
    rw [runLoop_nil]
    exact ⟨h1, h2, h3⟩
  | cons r rest ih =>
    intro i st h1 h2 h3
    rw [runLoop_cons]
    by_cases hab : aborted cA i
    · rw [if_pos hab]
      exact ⟨h1, h2, h3⟩
    · rw [if_neg hab]
      refine ih (i + 1) (stepState v cm inc cs r i st) ?_ ?_ ?_
      · rw [stepState_issues]
        exact processRecord_issues_le v cm inc r (i + 1) st h1
      · rw [stepState_validRecords]
        exact processRecord_validRecords_le v cm inc r (i + 1) st h2
      · rw [stepState_rawIssuesMap]
        exact processRecord_rawIssuesMap_le v cm inc r (i + 1) st h3

/-- A run without an abort signal never reports cancellation. -/
theorem runLoop_none_no_cancel (v : ValidatorModule) (cm : Option (List (String × String)))
    (inc : Bool) (cs tR : Nat) :
    ∀ (rest : List Obj) (i : Nat) (st : RunState),
      (runLoop v cm inc none cs tR rest i st).2.2 = none := by
  intro rest
  induction rest with
  | nil => intro i st; rw [runLoop_nil]
  | cons r rest ih =>
    intro i st
    rw [runLoop_cons]
    have : aborted none i = false := rfl
    rw [this]
    simp only [Bool.false_eq_true, if_false]
    exact ih (i + 1) (stepState v cm inc cs r i st)

/-- The final loop state and the cancellation index do not depend on the
`totalRows` figure (it only decorates the emitted snapshots). -/
theorem runLoop_tR_indep (v : ValidatorModule) (cm : Option (List (String × String)))
    (inc : Bool) (cA : Option Nat) (cs tR tR' : Nat) :
    ∀ (rest : List Obj) (i : Nat) (st : RunState),
      (runLoop v cm inc cA cs tR rest i st).1 = (runLoop v cm inc cA cs tR' rest i st).1 ∧
      (runLoop v cm inc cA cs tR rest i st).2.2 = (runLoop v cm inc cA cs tR' rest i st).2.2 := by
  intro rest
  induction rest with
  | nil => intro i st; rw [runLoop_nil, runLoop_nil]; exact ⟨rfl, rfl⟩
  | cons r rest ih =>
    intro i st
    rw [runLoop_cons, runLoop_cons]
    by_cases hab : aborted cA i
    · rw [if_pos hab, if_pos hab]
      exact ⟨rfl, rfl⟩
    · rw [if_neg hab, if_neg hab]
      exact ih (i + 1) (stepState v cm inc cs r i st)

/-- A run with the signal set from index `k` onwards behaves, up to the final
cancellation snapshot, like an unsignalled run over the first `k - i`
remaining records. -/
theorem runLoop_cancel (v : ValidatorModule) (cm : Option (List (String × String)))
    (inc : Bool) (cs tR k : Nat) :
    ∀ (rest : List Obj) (i : Nat) (st : RunState), i ≤ k →
      runLoop v cm inc (some k) cs tR rest i st =
        (if rest.length ≤ k - i then
          ((runLoop v cm inc none cs tR (rest.take (k - i)) i st).1,
           (runLoop v cm inc none cs tR (rest.take (k - i)) i st).2.1, none)
         else
          ((runLoop v cm inc none cs tR (rest.take (k - i)) i st).1,
           (runLoop v cm inc none cs tR (rest.take (k - i)) i st).2.1 ++
             [progressSnap tR k (runLoop v cm inc none cs tR (rest.take (k - i)) i st).1
               false true],
           some k)) := by
  intro rest
  induction rest with
  | nil =>
    intro i st hik
    rw [if_pos (by simp)]
    rw [List.take_nil, runLoop_nil, runLoop_nil]
  | cons r rest ih =>
    intro i st hik
    by_cases hieq : i = k
    · subst hieq
      have hab : aborted (some i) i = true := by simp [aborted]
      rw [runLoop_cons, if_pos hab]
      rw [if_neg (by simp)]
      simp only [Nat.sub_self, List.take_zero, runLoop_nil]
      rfl
    · have hik' : i + 1 ≤ k := by omega
      have hab : aborted (some k) i = false := by
        simp [aborted]
        omega
      have habn : aborted none i = false := rfl
      have htake : (r :: rest).take (k - i) = r :: rest.take (k - i - 1) := by
        rcases hki : k - i with _ | n
        · omega
        · simp [List.take_succ_cons]
      rw [runLoop_cons, hab]
      simp only [Bool.false_eq_true, if_false]
      rw [ih (i + 1) (stepState v cm inc cs r i st) hik']
      have hsub : k - (i + 1) = k - i - 1 := by omega
      rw [hsub]
      by_cases hlen : rest.length ≤ k - i - 1
      · rw [if_pos hlen, if_pos (by simp [htake]; omega)]
        rw [htake, runLoop_cons, habn]
        simp only [Bool.false_eq_true, if_false]
      · rw [if_neg hlen, if_neg (by simp [htake]; omega)]
        rw [htake, runLoop_cons, habn]
        simp only [Bool.false_eq_true, if_false, List.append_assoc]

/-- When the loop reports cancellation at `k`, the last emitted snapshot is
the cancellation snapshot over the final counters, with
`processedRows = k`. -/
theorem runLoop_last_cancel (v : ValidatorModule) (cm : Option (List (String × String)))
    (inc : Bool) (cA : Option Nat) (cs tR : Nat) :
    ∀ (rest : List Obj) (i : Nat) (st : RunState) (k : Nat),
      (runLoop v cm inc cA cs tR rest i st).2.2 = some k →
      (runLoop v cm inc cA cs tR rest i st).2.1.getLast? =
        some (progressSnap tR k (runLoop v cm inc cA cs tR rest i st).1 false true) := by
  intro rest
  induction rest with
  | nil =>
    intro i st k hk
    rw [runLoop_nil] at hk
    exact absurd hk (by simp)
  | cons r rest ih =>
    intro i st k hk
    rw [runLoop_cons] at hk ⊢
    by_cases hab : aborted cA i
    · rw [if_pos hab] at hk ⊢
      simp only at hk
      obtain hik : i = k := by simpa using hk
      subst hik
      rfl
    · rw [if_neg hab] at hk ⊢
      simp only at hk ⊢
      have := ih (i + 1) (stepState v cm inc cs r i st) k hk
      rw [List.getLast?_append, this]
      rfl

/-- Min-invariant soundness of the loop for the truncation-flag analysis:
with issue severities confined to error/warning and data always present on
valid records, the retained buffers are the clipped counters. -/
theorem runLoop_min (v : ValidatorModule) (cm : Option (List (String × String)))
    (cA : Option Nat) (cs tR : Nat)
    (hsev : ∀ (rec : Obj) (row : Nat), ∀ issue ∈ (v.validateRecord rec row).issues,
      issue.severity = Severity.error ∨ issue.severity = Severity.warning)
    (hdata : ∀ (rec : Obj) (row : Nat), (v.validateRecord rec row).isValid = true →
      ((v.validateRecord rec row).data).isSome) :
    ∀ (rest : List Obj) (i : Nat) (st : RunState),
      st.issues.length = min (st.errorCount + st.warningCount) MAX_ISSUES_RETURNED →
      st.validRecords.length = min st.validRows MAX_VALID_RECORDS_STORED →
      (runLoop v cm true cA cs tR rest i st).1.issues.length =
        min ((runLoop v cm true cA cs tR rest i st).1.errorCount +
          (runLoop v cm true cA cs tR rest i st).1.warningCount) MAX_ISSUES_RETURNED ∧
      (runLoop v cm true cA cs tR rest i st).1.validRecords.length =
        min (runLoop v cm true cA cs tR rest i st).1.validRows MAX_VALID_RECORDS_STORED := by
  intro rest
  induction rest with
  | nil =>
    intro i st h1 h2
    rw [runLoop_nil]
    exact ⟨h1, h2⟩
  | cons r rest ih =>
    intro i st h1 h2
    rw [runLoop_cons]
    by_cases hab : aborted cA i
    · rw [if_pos hab]
      exact ⟨h1, h2⟩
    · rw [if_neg hab]
      refine ih (i + 1) (stepState v cm true cs r i st) ?_ ?_
      · rw [stepState_issues, stepState_errorCount, stepState_warningCount]
        exact processRecord_issues_min v cm true r (i + 1) st
          (hsev (applyCustomMappings cm r) (i + 1)) h1
      · rw [stepState_validRecords, stepState_validRows]
        exact processRecord_validRecords_min v cm r (i + 1) st
          (hdata (applyCustomMappings cm r) (i + 1)) h2

/-! ### preValidateClient loop lemmas -/

theorem preStepState_validRows (v : ValidatorModule) (cs : Nat) (r : Obj) (i : Nat)
    (st : PreState) :
    (preStepState v cs r i st).validRows =
      st.validRows + (if (preCheckFn v r (i + 1)).isValid then 1 else 0) := by
  unfold preStepState
  by_cases h20 : i + 1 ≤ 20 <;>
    rcases hval : (preCheckFn v r (i + 1)).isValid with _ | _ <;>
      simp [h20, hval] <;> split <;> rfl

theorem preStepState_invalidRows (v : ValidatorModule) (cs : Nat) (r : Obj) (i : Nat)
    (st : PreState) :
    (preStepState v cs r i st).invalidRows =
      st.invalidRows + (if (preCheckFn v r (i + 1)).isValid then 0 else 1) := by
  unfold preStepState
  by_cases h20 : i + 1 ≤ 20 <;>
    rcases hval : (preCheckFn v r (i + 1)).isValid with _ | _ <;>
      simp [h20, hval] <;> split <;> rfl

theorem preStepState_rawIssuesMap (v : ValidatorModule) (cs : Nat) (r : Obj) (i : Nat)
    (st : PreState) :
    (preStepState v cs r i st).rawIssuesMap =
      if i + 1 ≤ 20 then
        addRawIssues st.rawIssuesMap (detectRawIssues r v.fieldAliases v.fieldNormalizers)
      else st.rawIssuesMap := by
  unfold preStepState
  by_cases h20 : i + 1 ≤ 20 <;>
    rcases hval : (preCheckFn v r (i + 1)).isValid with _ | _ <;>
      simp [h20, hval] <;> split <;> rfl

theorem preRunLoop_nil (v : ValidatorModule) (cA : Option Nat) (cs tR i : Nat)
    (st : PreState) : preRunLoop v cA cs tR [] i st = (st, [], none) := rfl

theorem preRunLoop_cons (v : ValidatorModule) (cA : Option Nat) (cs tR : Nat) (r : Obj)
    (rest : List Obj) (i : Nat) (st : PreState) :
    preRunLoop v cA cs tR (r :: rest) i st =
      if aborted cA i then (st, [], some i)
      else
        ((preRunLoop v cA cs tR rest (i + 1) (preStepState v cs r i st)).1,
         preStepEmit v cs tR r i st ++
           (preRunLoop v cA cs tR rest (i + 1) (preStepState v cs r i st)).2.1,
         (preRunLoop v cA cs tR rest (i + 1) (preStepState v cs r i st)).2.2) := rfl

/-- Characterization of an unsignalled preValidateClient loop: it never
cancels, counts exactly the rows whose raw check passes, and folds the raw
issues of the first 20 rows. -/
theorem preRunLoop_spec (v : ValidatorModule) (cs tR : Nat) :
    ∀ (rest : List Obj) (i : Nat) (st : PreState),
      (preRunLoop v none cs tR rest i st).2.2 = none ∧
      (preRunLoop v none cs tR rest i st).1.validRows =
        st.validRows +
          (List.enumFrom i rest).countP (fun p => (preCheckFn v p.2 (p.1 + 1)).isValid) ∧
      (preRunLoop v none cs tR rest i st).1.invalidRows =
        st.invalidRows +
          (List.enumFrom i rest).countP (fun p => !(preCheckFn v p.2 (p.1 + 1)).isValid) ∧
      (preRunLoop v none cs tR rest i st).1.rawIssuesMap =
        (List.enumFrom i rest).foldl
          (fun m p =>
            if p.1 + 1 ≤ 20 then
              addRawIssues m (detectRawIssues p.2 v.fieldAliases v.fieldNormalizers)
            else m)
          st.rawIssuesMap := by
  intro rest
  induction rest with
  | nil =>
    intro i st
    rw [preRunLoop_nil]
    simp [List.enumFrom]
  | cons r rest ih =>
    intro i st
    rw [preRunLoop_cons]
    have habn : aborted none i = false := rfl
    rw [habn]
    simp only [Bool.false_eq_true, if_false]
    obtain ⟨hno, hvr, hir, hmap⟩ := ih (i + 1) (preStepState v cs r i st)
    refine ⟨hno, ?_, ?_, ?_⟩
    · rw [hvr, preStepState_validRows]
      simp only [List.enumFrom, List.countP_cons]
      rcases hval : (preCheckFn v r (i + 1)).isValid with _ | _ <;> simp [hval] <;> omega
    · rw [hir, preStepState_invalidRows]
      simp only [List.enumFrom, List.countP_cons]
      rcases hval : (preCheckFn v r (i + 1)).isValid with _ | _ <;> simp [hval] <;> omega
    · rw [hmap, preStepState_rawIssuesMap]
      simp only [List.enumFrom, List.foldl_cons]

/-- The raw-issue preview map of the preValidateClient loop stays within its
cap. -/
theorem preRunLoop_caps (v : ValidatorModule) (cA : Option Nat) (cs tR : Nat) :
    ∀ (rest : List Obj) (i : Nat) (st : PreState),
      st.rawIssuesMap.length ≤ MAX_RAW_ISSUES_PREVIEW →
      (preRunLoop v cA cs tR rest i st).1.rawIssuesMap.length ≤ MAX_RAW_ISSUES_PREVIEW := by
  intro rest
  induction rest with
  | nil =>
    intro i st h
    rw [preRunLoop_nil]
    exact h
  | cons r rest ih =>
    intro i st h
    rw [preRunLoop_cons]
    by_cases hab : aborted cA i
    · rw [if_pos hab]
      exact h
    · rw [if_neg hab]
      refine ih (i + 1) (preStepState v cs r i st) ?_
      rw [preStepState_rawIssuesMap]
      split
      · exact addRawIssues_length_le _ _ h
      · exact h

/-! ### normalizeRecord stage lemmas -/

/-- A fold of alias steps over entries whose canonical name is never `c`
leaves `c` untouched. -/
theorem aliasFold_lookup_of_no_key (record : Obj) (c : String) :
    ∀ (aliases : List (String × List String)) (acc : Obj),
      (∀ ca ∈ aliases, ca.1 ≠ c) →
      (aliases.foldl (aliasStep record) acc).lookup c = acc.lookup c := by
  intro aliases
  induction aliases with
  | nil => intro acc _; rfl
  | cons ca rest ih =>
    intro acc hc
    rw [List.foldl_cons]
    rw [ih (aliasStep record acc ca) (fun ca' h' => hc ca' (List.mem_cons_of_mem ca h'))]
    unfold aliasStep
    rcases hres : resolveField record ca.1 ca.2 with _ | v
    · rfl
    · exact lookup_setKey_ne acc ca.1 c v (fun h => (hc ca (List.mem_cons_self ca rest)) h.symm)

/-- Lookup of a canonical field after step 1, with unique canonical names:
exactly the field's resolution, falling back to the accumulator. -/
theorem aliasFold_lookup (record : Obj) (c : String) (l : List String) :
    ∀ (aliases : List (String × List String)) (acc : Obj),
      (aliases.map Prod.fst).Nodup → (c, l) ∈ aliases →
      (aliases.foldl (aliasStep record) acc).lookup c =
        (resolveField record c l).or (acc.lookup c) := by
  intro aliases
  induction aliases with
  | nil => intro acc _ hmem; exact absurd hmem (List.not_mem_nil _)
  | cons ca rest ih =>
    intro acc hnd hmem
    have hnd' : (rest.map Prod.fst).Nodup := (List.nodup_cons.mp hnd).2
    have hhead : ca.1 ∉ rest.map Prod.fst := (List.nodup_cons.mp hnd).1
    rw [List.foldl_cons]
    rcases List.mem_cons.mp hmem with heq | hmem'
    · have hca : ca = (c, l) := heq.symm
      have hkey : ca.1 = c := by rw [hca]
      have hrest : ∀ ca' ∈ rest, ca'.1 ≠ c := by
        intro ca' h' habs
        exact hhead (hkey ▸ habs ▸ List.mem_map_of_mem Prod.fst h')
      rw [aliasFold_lookup_of_no_key record c rest _ hrest]
      unfold aliasStep
      rw [hca]
      rcases hres : resolveField record c l with _ | v
      · simp [hres, Option.or]
      · simp [hres, Option.or, lookup_setKey_self]
    · have hkey : ca.1 ≠ c := by
        intro habs
        exact hhead (habs ▸ List.mem_map_of_mem Prod.fst hmem')
      have hacc : (aliasStep record acc ca).lookup c = acc.lookup c := by
        unfold aliasStep
        rcases hres : resolveField record ca.1 ca.2 with _ | v
        · rfl
        · exact lookup_setKey_ne acc ca.1 c v (fun h => hkey h.symm)
      rw [ih (aliasStep record acc ca) hnd' hmem', hacc]

/-- `mapAliasedFields` at a declared canonical field is exactly
`resolveField`. -/
theorem mapAliasedFields_lookup (record : Obj) (aliases : List (String × List String))
    (c : String) (l : List String) (hnd : (aliases.map Prod.fst).Nodup)
    (hmem : (c, l) ∈ aliases) :
    (mapAliasedFields record aliases).lookup c = resolveField record c l := by
  unfold mapAliasedFields
  rw [aliasFold_lookup record c l aliases [] hnd hmem]
  rcases hres : resolveField record c l with _ | v <;> simp [Option.or]

/-- `mapAliasedFields` holds no key that is not a declared canonical name. -/
theorem mapAliasedFields_lookup_of_no_key (record : Obj)
    (aliases : List (String × List String)) (c : String)
    (hc : ∀ ca ∈ aliases, ca.1 ≠ c) :
    (mapAliasedFields record aliases).lookup c = none := by
  unfold mapAliasedFields
  rw [aliasFold_lookup_of_no_key record c aliases [] hc]
  rfl

/-- The alias scan takes the value of the first alias that is defined and
non-empty, in declared order (`List.find?` order). -/
theorem firstNonEmptyAlias_eq_find (record : Obj) :
    ∀ (l : List String),
      firstNonEmptyAlias record l =
        (l.find? (fun a =>
            match record.lookup a with
            | some v => decide ¬ (v = Value.str "")
            | none => false)).bind record.lookup := by
  intro l
  induction l with
  | nil => rfl
  | cons a rest ih =>
    rcases hla : record.lookup a with _ | v
    · unfold firstNonEmptyAlias
      rw [List.find?_cons]
      simp only [hla]
      exact ih
    · by_cases hv : v = Value.str ""
      · unfold firstNonEmptyAlias
        rw [List.find?_cons]
        simp only [hla]
        rw [if_pos hv]
        have hdec : (decide ¬ (v = Value.str "")) = false := by simp [hv]
        rw [hdec]
        exact ih
      · unfold firstNonEmptyAlias
        rw [List.find?_cons]
        simp only [hla]
        rw [if_neg hv]
        have hdec : (decide ¬ (v = Value.str "")) = true := by simp [hv]
        rw [hdec]
        simp [hla]

/-! ### copyUnmapped lemmas -/

/-- A pass-through fold never removes or overwrites an existing key. -/
theorem passFold_lookup_of_some (aliases : List (String × List String)) (k : String)
    (v : Value) :
    ∀ (record : List (String × Value)) (acc : Obj), acc.lookup k = some v →
      (record.foldl (passStep aliases) acc).lookup k = some v := by
  intro record
  refine foldl_invariant (passStep aliases) (fun acc => acc.lookup k = some v) ?_ record
  intro acc kv hacc
  show (passStep aliases acc kv).lookup k = some v
  unfold passStep
  by_cases hk : kv.1 = k
  · rw [if_pos (by rw [hk, hacc]; rfl)]
    exact hacc
  · split
    · exact hacc
    · split
      · exact hacc
      · rw [lookup_setKey_ne acc kv.1 k kv.2 (fun h => hk h.symm)]
        exact hacc

/-- A pass-through fold over entries whose key is never `k` leaves `k`
untouched. -/
theorem passFold_lookup_of_no_key (aliases : List (String × List String)) (k : String) :
    ∀ (record : List (String × Value)) (acc : Obj), (∀ kv ∈ record, kv.1 ≠ k) →
      (record.foldl (passStep aliases) acc).lookup k = acc.lookup k := by
  intro record
  induction record with
  | nil => intro acc _; rfl
  | cons kv rest ih =>
    intro acc hk
    rw [List.foldl_cons]
    rw [ih (passStep aliases acc kv) (fun kv' h' => hk kv' (List.mem_cons_of_mem kv h'))]
    unfold passStep
    split
    · rfl
    · split
      · rfl
      · exact lookup_setKey_ne acc kv.1 k kv.2
          (fun h => (hk kv (List.mem_cons_self kv rest)) h.symm)

/-- A declared alias key absent from the accumulator is never copied
through. -/
theorem passFold_lookup_of_alias (aliases : List (String × List String)) (k : String)
    (halias : isAliasKey aliases k = true) :
    ∀ (record : List (String × Value)) (acc : Obj), acc.lookup k = none →
      (record.foldl (passStep aliases) acc).lookup k = none := by
  intro record
  refine foldl_invariant (passStep aliases) (fun acc => acc.lookup k = none) ?_ record
  intro acc kv hacc
  show (passStep aliases acc kv).lookup k = none
  unfold passStep
  by_cases hk : kv.1 = k
  · rw [hk, if_neg (by rw [hacc]; simp), if_pos halias]
    exact hacc
  · split
    · exact hacc
    · split
      · exact hacc
      · rw [lookup_setKey_ne acc kv.1 k kv.2 (fun h => hk h.symm)]
        exact hacc

/-- A raw field whose key is absent from the accumulator and not a declared
alias is copied through under its original name. -/
theorem passFold_lookup_of_copy (aliases : List (String × List String)) (k : String)
    (halias : isAliasKey aliases k = false) :
    ∀ (record : List (String × Value)) (acc : Obj),
      (record.map Prod.fst).Nodup → acc.lookup k = none →
      (record.foldl (passStep aliases) acc).lookup k = record.lookup k := by
  intro record
  induction record with
  | nil => intro acc _ hacc; exact hacc
  | cons kv rest ih =>
    intro acc hnd hacc
    have hnd' : (rest.map Prod.fst).Nodup := (List.nodup_cons.mp hnd).2
    have hhead : kv.1 ∉ rest.map Prod.fst := (List.nodup_cons.mp hnd).1
    rw [List.foldl_cons]
    by_cases hk : kv.1 = k
    · rcases kv with ⟨k1, v1⟩
      simp only at hk hhead
      subst hk
      have hrest : ∀ kv' ∈ rest, kv'.1 ≠ k1 := by
        intro kv' h' habs
        apply hhead
        rw [← habs]
        exact List.mem_map_of_mem Prod.fst h'
      rw [passFold_lookup_of_no_key aliases k1 rest _ hrest]
      unfold passStep
      rw [if_neg (by rw [hacc]; simp), if_neg (by rw [halias]; simp)]
      rw [lookup_setKey_self, List.lookup_cons]
      simp
    · have hstep : (passStep aliases acc kv).lookup k = none := by
        unfold passStep
        split
        · exact hacc
        · split
          · exact hacc
          · rw [lookup_setKey_ne acc kv.1 k kv.2 (fun h => hk h.symm)]
            exact hacc
      rw [ih (passStep aliases acc kv) hnd' hstep]
      rcases kv with ⟨k1, v1⟩
      rw [List.lookup_cons]
      have hbe : (k == k1) = false := beq_eq_false_iff_ne.mpr (fun h => hk h.symm)
      simp [hbe]

/-! ### applyDefaults and applyNormalizers lemmas -/

/-- A default fold over entries whose key is never `k` leaves `k`
untouched. -/
theorem defaultFold_lookup_of_no_key (k : String) :
    ∀ (ds : List (String × Value)) (acc : Obj), (∀ kv ∈ ds, kv.1 ≠ k) →
      (ds.foldl defaultStep acc).lookup k = acc.lookup k := by
  intro ds
  induction ds with
  | nil => intro acc _; rfl
  | cons kv rest ih =>
    intro acc hk
    rw [List.foldl_cons]
    rw [ih (defaultStep acc kv) (fun kv' h' => hk kv' (List.mem_cons_of_mem kv h'))]
    have hne : k ≠ kv.1 := fun h => (hk kv (List.mem_cons_self kv rest)) h.symm
    unfold defaultStep
    split
    · exact lookup_setKey_ne acc kv.1 k kv.2 hne
    · split
      · exact lookup_setKey_ne acc kv.1 k kv.2 hne
      · rfl

/-- The default value is injected whenever the field is undefined or the
empty string, for a declared default with unique keys. -/
theorem applyDefaults_lookup_missing (k : String) (d : Value) :
    ∀ (ds : List (String × Value)) (m : Obj), (ds.map Prod.fst).Nodup → (k, d) ∈ ds →
      (m.lookup k = none ∨ m.lookup k = some (Value.str "")) →
      (applyDefaults (some ds) m).lookup k = some d := by
  intro ds
  induction ds with
  | nil => intro m _ hmem _; exact absurd hmem (List.not_mem_nil _)
  | cons kv rest ih =>
    intro m hnd hmem hm
    have hnd' : (rest.map Prod.fst).Nodup := (List.nodup_cons.mp hnd).2
    have hhead : kv.1 ∉ rest.map Prod.fst := (List.nodup_cons.mp hnd).1
    show (List.foldl defaultStep m (kv :: rest)).lookup k = some d
    rw [List.foldl_cons]
    rcases List.mem_cons.mp hmem with heq | hmem'
    · have hkv : kv = (k, d) := heq.symm
      have hrest : ∀ kv' ∈ rest, kv'.1 ≠ k := by
        intro kv' h' habs
        apply hhead
        rw [hkv]
        show k ∈ rest.map Prod.fst
        rw [← habs]
        exact List.mem_map_of_mem Prod.fst h'
      rw [defaultFold_lookup_of_no_key k rest _ hrest]
      unfold defaultStep
      rw [hkv]
      rcases hm with hm | hm
      · rw [hm]
        exact lookup_setKey_self m k d
      · rw [hm]
        show (if Value.str "" = Value.str "" then setKey m (k, d).1 (k, d).2 else m).lookup k =
          some d
        rw [if_pos rfl]
        exact lookup_setKey_self m k d
    · have hkey : kv.1 ≠ k := by
        intro habs
        apply hhead
        have hmm : ((k, d) : String × Value).1 ∈ rest.map Prod.fst :=
          List.mem_map_of_mem Prod.fst hmem'
        rw [habs]
        exact hmm
      have hstep : (defaultStep m kv).lookup k = m.lookup k := by
        unfold defaultStep
        split
        · exact lookup_setKey_ne m kv.1 k kv.2 (fun h => hkey h.symm)
        · split
          · exact lookup_setKey_ne m kv.1 k kv.2 (fun h => hkey h.symm)
          · rfl
      have := ih (defaultStep m kv) hnd' hmem' (by rw [hstep]; exact hm)
      unfold applyDefaults at this
      exact this

/-- Default injection leaves a field with no declared default untouched. -/
theorem applyDefaults_lookup_of_no_key (k : String) (ds : List (String × Value)) (m : Obj)
    (hk : ∀ kv ∈ ds, kv.1 ≠ k) :
    (applyDefaults (some ds) m).lookup k = m.lookup k :=
  defaultFold_lookup_of_no_key k ds m hk

/-- Normalizer application leaves a field with no declared normalizer
untouched. -/
theorem applyNormalizers_lookup_of_no_key (k : String) :
    ∀ (ns : List (String × (Value → Value))) (m : Obj), (∀ fn ∈ ns, fn.1 ≠ k) →
      (applyNormalizers ns m).lookup k = m.lookup k := by
  intro ns
  induction ns with
  | nil => intro m _; rfl
  | cons fn rest ih =>
    intro m hk
    unfold applyNormalizers
    rw [List.foldl_cons]
    have tail : (rest.foldl normStep (normStep m fn)).lookup k = (normStep m fn).lookup k := by
      have := ih (normStep m fn) (fun fn' h' => hk fn' (List.mem_cons_of_mem fn h'))
      unfold applyNormalizers at this
      exact this
    rw [tail]
    have hne : k ≠ fn.1 := fun h => (hk fn (List.mem_cons_self fn rest)) h.symm
    unfold normStep
    split
    · exact lookup_setKey_ne m fn.1 k _ hne
    · rfl

/-! ### applyCustomMappings lemmas -/

/-- The custom-mapping loop body stores each raw field under
`mappedFieldName`. -/
theorem applyCustomMappings_eq_foldl (cm : List (String × String)) (record : Obj) :
    applyCustomMappings (some cm) record =
      record.foldl (fun mapped kv => setKey mapped (mappedFieldName cm kv.1) kv.2) [] := by
  unfold applyCustomMappings
  have hfn : (fun (mapped : Obj) (kv : String × Value) =>
      match cm.lookup kv.1 with
      | some target =>
        if target = "" then setKey mapped kv.1 kv.2 else setKey mapped target kv.2
      | none => setKey mapped kv.1 kv.2) =
      (fun mapped kv => setKey mapped (mappedFieldName cm kv.1) kv.2) := by
    funext mapped kv
    unfold mappedFieldName
    rcases hl : cm.lookup kv.1 with _ | target
    · rfl
    · by_cases ht : target = "" <;> simp [ht]
  show record.foldl (fun (mapped : Obj) (kv : String × Value) =>
      match cm.lookup kv.1 with
      | some target =>
        if target = "" then setKey mapped kv.1 kv.2 else setKey mapped target kv.2
      | none => setKey mapped kv.1 kv.2) [] =
    record.foldl (fun mapped kv => setKey mapped (mappedFieldName cm kv.1) kv.2) []
  rw [hfn]

/-- A mapped fold over raw fields none of which maps to `t` leaves `t`
untouched. -/
theorem mappedFold_lookup_of_no_target (cm : List (String × String)) (t : String) :
    ∀ (record : List (String × Value)) (acc : Obj),
      (∀ kv ∈ record, mappedFieldName cm kv.1 ≠ t) →
      (record.foldl (fun mapped kv => setKey mapped (mappedFieldName cm kv.1) kv.2) acc).lookup t =
        acc.lookup t := by
  intro record
  induction record with
  | nil => intro acc _; rfl
  | cons kv rest ih =>
    intro acc hk
    rw [List.foldl_cons]
    rw [ih _ (fun kv' h' => hk kv' (List.mem_cons_of_mem kv h'))]
    exact lookup_setKey_ne acc (mappedFieldName cm kv.1) t kv.2
      (hk kv (List.mem_cons_self kv rest)).symm

/-- With unique raw keys and no other raw field mapping onto the same target,
the mapped fold stores a raw field under its mapped name with its original
value, for any accumulator. -/
theorem mappedFold_lookup (cm : List (String × String)) (k : String) (v : Value) :
    ∀ (record : List (String × Value)) (acc : Obj),
      (record.map Prod.fst).Nodup → record.lookup k = some v →
      (∀ kv ∈ record, kv.1 ≠ k → mappedFieldName cm kv.1 ≠ mappedFieldName cm k) →
      (record.foldl (fun mapped kv => setKey mapped (mappedFieldName cm kv.1) kv.2)
        acc).lookup (mappedFieldName cm k) = some v := by
  intro record
  induction record with
  | nil => intro acc _ hlk _; exact absurd hlk (by simp [List.lookup])
  | cons kv rest ih =>
    intro acc hnd hlk huniq
    rw [List.foldl_cons]
    have hnd' : (rest.map Prod.fst).Nodup := (List.nodup_cons.mp hnd).2
    have hhead : kv.1 ∉ rest.map Prod.fst := (List.nodup_cons.mp hnd).1
    rcases kv with ⟨k1, v1⟩
    simp only at hhead
    rcases hbe : k == k1 with _ | _
    · have hlk' : rest.lookup k = some v := by
        rw [List.lookup_cons, hbe] at hlk
        exact hlk
      have huniq' : ∀ kv' ∈ rest, kv'.1 ≠ k → mappedFieldName cm kv'.1 ≠ mappedFieldName cm k :=
        fun kv' h' => huniq kv' (List.mem_cons_of_mem _ h')
      exact ih _ hnd' hlk' huniq'
    · have hk1 : k1 = k := (beq_iff_eq.mp hbe).symm
      have hv1 : v1 = v := by
        rw [List.lookup_cons, hbe] at hlk
        simpa using hlk
      subst hk1
      subst hv1
      have hrest : ∀ kv' ∈ rest, mappedFieldName cm kv'.1 ≠ mappedFieldName cm k1 := by
        intro kv' h'
        refine huniq kv' (List.mem_cons_of_mem _ h') ?_
        intro habs
        apply hhead
        rw [← habs]
        exact List.mem_map_of_mem Prod.fst h'
      rw [mappedFold_lookup_of_no_target cm (mappedFieldName cm k1) rest _ hrest]
      exact lookup_setKey_self acc (mappedFieldName cm k1) v1

/-- With unique raw keys and no other raw field mapping onto the same target,
a raw field ends up under its mapped name with its original value. -/
theorem applyCustomMappings_lookup (cm : List (String × String)) (k : String) (v : Value)
    (record : List (String × Value))
    (hnd : (record.map Prod.fst).Nodup) (hlk : record.lookup k = some v)
    (huniq : ∀ kv ∈ record, kv.1 ≠ k → mappedFieldName cm kv.1 ≠ mappedFieldName cm k) :
    (applyCustomMappings (some cm) record).lookup (mappedFieldName cm k) = some v := by
  rw [applyCustomMappings_eq_foldl]
  exact mappedFold_lookup cm k v record [] hnd hlk huniq

/-! ### detectRawIssues lemmas -/

/-- The alias scan finds nothing when every alias is undefined or the empty
string. -/
theorem firstNonEmptyAlias_none (record : Obj) :
    ∀ (l : List String),
      (∀ a ∈ l, record.lookup a = none ∨ record.lookup a = some (Value.str "")) →
      firstNonEmptyAlias record l = none := by
  intro l
  induction l with
  | nil => intro _; rfl
  | cons a rest ih =>
    intro hall
    unfold firstNonEmptyAlias
    rcases hall a (List.mem_cons_self a rest) with h | h
    · rw [h]
      exact ih (fun a' h' => hall a' (List.mem_cons_of_mem a h'))
    · rw [h]
      show (if Value.str "" = Value.str "" then firstNonEmptyAlias record rest
        else some (Value.str "")) = none
      rw [if_pos rfl]
      exact ih (fun a' h' => hall a' (List.mem_cons_of_mem a h'))

/-- The misnamed-field check fires for every declared alias that is defined
(with any value) while its canonical name is undefined. -/
theorem renameIssues_mem (record : Obj) (aliases : List (String × List String))
    (c : String) (l : List String) (al : String)
    (hmem : (c, l) ∈ aliases) (hal : al ∈ l)
    (hdef : (record.lookup al).isSome) (hcanon : record.lookup c = none) :
    ({ field := al, original := Value.str al, fixed := some (Value.str c),
       problem := "Field \"" ++ al ++ "\" renamed to \"" ++ c ++ "\"",
       severity := Severity.info } : RawIssue) ∈ renameIssues record aliases := by
  unfold renameIssues
  apply List.mem_flatMap.mpr
  refine ⟨(c, l), hmem, ?_⟩
  apply List.mem_filterMap.mpr
  refine ⟨al, hal, ?_⟩
  rw [if_pos]
  rw [hdef]
  simp [hcanon]

/-- Raw-issue detection reports every issue found by the misnamed-field
check. -/
theorem detectRawIssues_mem_rename (record : Obj) (aliases : List (String × List String))
    (normalizers : List (String × (Value → Value))) (issue : RawIssue)
    (h : issue ∈ renameIssues record aliases) :
    issue ∈ detectRawIssues record aliases normalizers := by
  unfold detectRawIssues
  simp only [List.mem_append]
  exact Or.inl (Or.inr h)

/-! ### Result-shape dispatch lemmas -/

theorem validateClient_cancelled (v : ValidatorModule) (records : List Obj) (inc : Bool)
    (cm : Option (List (String × String))) (cA : Option Nat) (cs k : Nat)
    (hc : (runLoop v cm inc cA cs records.length records 0 initState).2.2 = some k) :
    validateClient v records inc cm cA cs =
      ({ success := false,
         summary := { totalRows := records.length,
                      validRows := (runLoop v cm inc cA cs records.length records 0 initState).1.validRows,
                      invalidRows := (runLoop v cm inc cA cs records.length records 0 initState).1.invalidRows,
                      errorCount := (runLoop v cm inc cA cs records.length records 0 initState).1.errorCount,
                      warningCount := (runLoop v cm inc cA cs records.length records 0 initState).1.warningCount,
                      issues := (runLoop v cm inc cA cs records.length records 0 initState).1.issues,
                      validRecords :=
                        if inc then
                          some (runLoop v cm inc cA cs records.length records 0 initState).1.validRecords
                        else none },
         rawIssues :=
           some ((runLoop v cm inc cA cs records.length records 0 initState).1.rawIssuesMap.map
             (fun p => p.2)),
         truncated := true,
         validRecordsTruncated := false },
       initialSnap records.length ::
         (runLoop v cm inc cA cs records.length records 0 initState).2.1) := by
  unfold validateClient
  simp only [hc]

theorem validateClient_completed (v : ValidatorModule) (records : List Obj) (inc : Bool)
    (cm : Option (List (String × String))) (cA : Option Nat) (cs : Nat)
    (hc : (runLoop v cm inc cA cs records.length records 0 initState).2.2 = none) :
    validateClient v records inc cm cA cs =
      ({ success := true,
         summary := { totalRows := records.length,
                      validRows := (runLoop v cm inc cA cs records.length records 0 initState).1.validRows,
                      invalidRows := (runLoop v cm inc cA cs records.length records 0 initState).1.invalidRows,
                      errorCount := (runLoop v cm inc cA cs records.length records 0 initState).1.errorCount,
                      warningCount := (runLoop v cm inc cA cs records.length records 0 initState).1.warningCount,
                      issues := (runLoop v cm inc cA cs records.length records 0 initState).1.issues,
                      validRecords :=
                        if inc then
                          some (runLoop v cm inc cA cs records.length records 0 initState).1.validRecords
                        else none },
         rawIssues :=
           if 0 < ((runLoop v cm inc cA cs records.length records 0 initState).1.rawIssuesMap.map
               (fun p => p.2)).length then
             some ((runLoop v cm inc cA cs records.length records 0 initState).1.rawIssuesMap.map
               (fun p => p.2))
           else none,
         truncated :=
           decide (MAX_ISSUES_RETURNED <
             (runLoop v cm inc cA cs records.length records 0 initState).1.errorCount +
               (runLoop v cm inc cA cs records.length records 0 initState).1.warningCount),
         validRecordsTruncated :=
           inc && decide (MAX_VALID_RECORDS_STORED <
             (runLoop v cm inc cA cs records.length records 0 initState).1.validRows) },
       initialSnap records.length ::
         ((runLoop v cm inc cA cs records.length records 0 initState).2.1 ++
           [progressSnap records.length records.length
             (runLoop v cm inc cA cs records.length records 0 initState).1 true false])) := by
  unfold validateClient
  simp only [hc]

theorem preValidateClient_completed (v : ValidatorModule) (records : List Obj)
    (cA : Option Nat) (cs : Nat)
    (hc : (preRunLoop v cA cs records.length records 0 preInitState).2.2 = none) :
    preValidateClient v records cA cs =
      ({ totalRows := records.length, analyzedRows := records.length,
         validRows := (preRunLoop v cA cs records.length records 0 preInitState).1.validRows,
         invalidRows := (preRunLoop v cA cs records.length records 0 preInitState).1.invalidRows,
         rawIssues :=
           (preRunLoop v cA cs records.length records 0 preInitState).1.rawIssuesMap.map
             (fun p => p.2) },
       preInitialSnap records.length ::
         ((preRunLoop v cA cs records.length records 0 preInitState).2.1 ++
           [{ totalRows := records.length, processedRows := records.length,
              validRows := (preRunLoop v cA cs records.length records 0 preInitState).1.validRows,
              invalidRows := (preRunLoop v cA cs records.length records 0 preInitState).1.invalidRows,
              isComplete := true, isCancelled := false }])) := by
  unfold preValidateClient
  simp only [hc]

theorem preValidateClient_cancelled (v : ValidatorModule) (records : List Obj)
    (cA : Option Nat) (cs i : Nat)
    (hc : (preRunLoop v cA cs records.length records 0 preInitState).2.2 = some i) :
    preValidateClient v records cA cs =
      ({ totalRows := records.length, analyzedRows := i,
         validRows := (preRunLoop v cA cs records.length records 0 preInitState).1.validRows,
         invalidRows := (preRunLoop v cA cs records.length records 0 preInitState).1.invalidRows,
         rawIssues :=
           (preRunLoop v cA cs records.length records 0 preInitState).1.rawIssuesMap.map
             (fun p => p.2) },
       preInitialSnap records.length ::
         (preRunLoop v cA cs records.length records 0 preInitState).2.1) := by
  unfold preValidateClient
  simp only [hc]

/-! ## Claims -/

/-- C5: for every raw record and every canonical field with an alias entry,
a defined non-empty value under the canonical name itself wins (even when
aliases also hold non-empty values); otherwise the canonical field takes the
value of the first alias in declared list order whose value is defined and
not the empty string; when no such alias exists the field is left unset by
the alias-mapping step. -/
theorem C5_alias_precedence (record : Obj) (aliases : List (String × List String))
    (c : String) (l : List String)
    (hnd : (aliases.map Prod.fst).Nodup) (hmem : (c, l) ∈ aliases) :
    (∀ v, record.lookup c = some v → v ≠ Value.str "" →
      (mapAliasedFields record aliases).lookup c = some v) ∧
    ((record.lookup c = none ∨ record.lookup c = some (Value.str "")) →
      (mapAliasedFields record aliases).lookup c =
        (l.find? (fun a =>
            match record.lookup a with
            | some v => decide ¬ (v = Value.str "")
            | none => false)).bind record.lookup) := by
  constructor
  · intro v hv hne
    rw [mapAliasedFields_lookup record aliases c l hnd hmem]
    unfold resolveField
    rw [hv]
    show (if v = Value.str "" then firstNonEmptyAlias record l else some v) = some v
    rw [if_neg hne]
  · intro hcase
    rw [mapAliasedFields_lookup record aliases c l hnd hmem, ← firstNonEmptyAlias_eq_find]
    unfold resolveField
    rcases hcase with h | h
    · rw [h]
    · rw [h]
      show (if Value.str "" = Value.str "" then firstNonEmptyAlias record l
        else some (Value.str "")) = firstNonEmptyAlias record l
      rw [if_pos rfl]

/-- Witness for C5 on a concrete record where both the canonical field and
its alias are non-empty: the canonical value wins. -/
theorem C5_alias_precedence_witness :
    (((([("price", ["cost"])] : List (String × List String)).map Prod.fst).Nodup ∧
      ("price", ["cost"]) ∈ ([("price", ["cost"])] : List (String × List String))) ∧
    ((∀ v, ([("price", Value.str "9"), ("cost", Value.str "5")] : Obj).lookup "price" = some v →
        v ≠ Value.str "" →
        (mapAliasedFields [("price", Value.str "9"), ("cost", Value.str "5")]
          [("price", ["cost"])]).lookup "price" = some v) ∧
    ((([("price", Value.str "9"), ("cost", Value.str "5")] : Obj).lookup "price" = none ∨
        ([("price", Value.str "9"), ("cost", Value.str "5")] : Obj).lookup "price" =
          some (Value.str "")) →
      (mapAliasedFields [("price", Value.str "9"), ("cost", Value.str "5")]
          [("price", ["cost"])]).lookup "price" =
        ((["cost"] : List String).find? (fun a =>
            match ([("price", Value.str "9"), ("cost", Value.str "5")] : Obj).lookup a with
            | some v => decide ¬ (v = Value.str "")
            | none => false)).bind
          ([("price", Value.str "9"), ("cost", Value.str "5")] : Obj).lookup))) :=
  ⟨⟨by decide, by decide⟩,
    C5_alias_precedence [("price", Value.str "9"), ("cost", Value.str "5")]
      [("price", ["cost"])] "price" ["cost"] (by decide) (by decide)⟩

/-- C6 counterexample: the claim says a raw field whose name is a canonical
name with an alias entry is never copied through, and that an empty string
never survives as the present value of a canonical field.  But for the record
with `price = ""` under alias table `price ← [cost]`, alias resolution finds
nothing, the pass-through loop then copies the raw `price` field (its key is
not in the step-1 object and is not an alias), and with no default or
normalizer the empty string survives in the output. -/
theorem C6_counterexample :
    (normalizeRecord [("price", Value.str "")] [("price", ["cost"])] [] none).lookup "price" =
      some (Value.str "") := by decide

/-- C6 (amended): the pass-through step copies exactly the raw fields whose
key was not resolved by the alias-mapping step and is not a declared alias —
so a canonical name whose alias resolution produced no value is itself copied
through; the empty string is treated as missing by default injection; and an
empty string under a canonical field with no applicable default survives the
whole of normalizeRecord. -/
theorem C6_passthrough_amended (record : Obj) (aliases : List (String × List String))
    (normalizers : List (String × (Value → Value)))
    (defaults : Option (List (String × Value))) (c : String) (l : List String)
    (hnd_r : (record.map Prod.fst).Nodup)
    (hnd_a : (aliases.map Prod.fst).Nodup)
    (hmem : (c, l) ∈ aliases)
    (hempty : record.lookup c = some (Value.str ""))
    (hall : ∀ a ∈ l, record.lookup a = none ∨ record.lookup a = some (Value.str ""))
    (hnotalias : isAliasKey aliases c = false)
    (hnodefault : ∀ ds, defaults = some ds → ∀ kv ∈ ds, kv.1 ≠ c)
    (hnonorm : ∀ fn ∈ normalizers, fn.1 ≠ c) :
    (∀ (k : String),
      (copyUnmapped record aliases (mapAliasedFields record aliases)).lookup k =
        match (mapAliasedFields record aliases).lookup k with
        | some v => some v
        | none => if isAliasKey aliases k then none else record.lookup k) ∧
    (∀ (k : String) (d : Value) (ds : List (String × Value)) (m : Obj),
      (ds.map Prod.fst).Nodup → (k, d) ∈ ds →
      (m.lookup k = none ∨ m.lookup k = some (Value.str "")) →
      (applyDefaults (some ds) m).lookup k = some d) ∧
    (normalizeRecord record aliases normalizers defaults).lookup c =
      some (Value.str "") := by
  have hstep1 : (mapAliasedFields record aliases).lookup c = none := by
    rw [mapAliasedFields_lookup record aliases c l hnd_a hmem]
    unfold resolveField
    rw [hempty]
    show (if Value.str "" = Value.str "" then firstNonEmptyAlias record l
      else some (Value.str "")) = none
    rw [if_pos rfl]
    exact firstNonEmptyAlias_none record l hall
  refine ⟨?_, ?_, ?_⟩
  · intro k
    unfold copyUnmapped
    rcases hk : (mapAliasedFields record aliases).lookup k with _ | v
    · by_cases halias : isAliasKey aliases k
      · rw [passFold_lookup_of_alias aliases k halias record _ hk]
        simp [halias]
      · rw [passFold_lookup_of_copy aliases k (by simpa using halias) record _ hnd_r hk]
        simp [halias]
    · exact passFold_lookup_of_some aliases k v record _ hk
  · intro k d ds m hnds hmemd hm
    exact applyDefaults_lookup_missing k d ds m hnds hmemd hm
  · unfold normalizeRecord
    have hstep2 : (copyUnmapped record aliases (mapAliasedFields record aliases)).lookup c =
        some (Value.str "") := by
      unfold copyUnmapped
      rw [passFold_lookup_of_copy aliases c hnotalias record _ hnd_r hstep1]
      exact hempty
    have hstep3 : (applyDefaults defaults
        (copyUnmapped record aliases (mapAliasedFields record aliases))).lookup c =
        some (Value.str "") := by
      rcases defaults with _ | ds
      · exact hstep2
      · rw [applyDefaults_lookup_of_no_key c ds _ (hnodefault ds rfl)]
        exact hstep2
    rw [applyNormalizers_lookup_of_no_key c normalizers _ hnonorm]
    exact hstep3

/-- Witness for the amended C6 at the counterexample's record. -/
theorem C6_passthrough_amended_witness :
    ((([("price", Value.str "")] : Obj).map Prod.fst).Nodup ∧
     (([("price", ["cost"])] : List (String × List String)).map Prod.fst).Nodup ∧
     ("price", ["cost"]) ∈ ([("price", ["cost"])] : List (String × List String)) ∧
     ([("price", Value.str "")] : Obj).lookup "price" = some (Value.str "") ∧
     isAliasKey [("price", ["cost"])] "price" = false) ∧
    (normalizeRecord [("price", Value.str "")] [("price", ["cost"])] [] none).lookup "price" =
      some (Value.str "") :=
  ⟨⟨by decide, by decide, by decide, by decide, by decide⟩,
    (C6_passthrough_amended [("price", Value.str "")] [("price", ["cost"])] [] none
      "price" ["cost"] (by decide) (by decide) (by decide) (by decide)
      (by intro a ha; simp at ha; simp [ha])
      (by decide)
      (by intro ds h; exact absurd h (by simp))
      (by intro fn h; exact absurd h (List.not_mem_nil fn))).2.2⟩

/-- C9 counterexample: the claim says every raw field with a mapping entry is
renamed to its mapped target, but a mapping entry whose target is the empty
string is falsy in JS, so the loop keeps the field under its original name:
mapping sku → "" leaves the record unchanged instead of renaming sku to "". -/
theorem C9_counterexample :
    (applyCustomMappings (some [("sku", "")]) [("sku", Value.str "A1")]).lookup "" = none ∧
    (applyCustomMappings (some [("sku", "")]) [("sku", Value.str "A1")]).lookup "sku" =
      some (Value.str "A1") := by
  exact ⟨by decide, by decide⟩

/-- C9 (amended): with a custom mapping supplied, every raw field is stored
under `mappedFieldName` — its mapped target when the mapping holds a
non-empty target for it, its original name otherwise (an empty-string target
counts as no mapping) — with its original value, provided no other raw field
lands on the same name; the declared alias table is not consulted
(`applyCustomMappings` does not receive it); in particular the mapping
sku → item_id on the record with sku = "A1" yields item_id = "A1". -/
theorem C9_custom_mapping_amended (cm : List (String × String)) (k : String) (v : Value)
    (record : List (String × Value))
    (hnd : (record.map Prod.fst).Nodup) (hlk : record.lookup k = some v)
    (huniq : ∀ kv ∈ record, kv.1 ≠ k → mappedFieldName cm kv.1 ≠ mappedFieldName cm k) :
    (applyCustomMappings (some cm) record).lookup (mappedFieldName cm k) = some v ∧
    (∀ k', cm.lookup k' = none → mappedFieldName cm k' = k') ∧
    (∀ k', cm.lookup k' = some "" → mappedFieldName cm k' = k') ∧
    (applyCustomMappings (some [("sku", "item_id")]) [("sku", Value.str "A1")]).lookup
      "item_id" = some (Value.str "A1") := by
  refine ⟨applyCustomMappings_lookup cm k v record hnd hlk huniq, ?_, ?_, by decide⟩
  · intro k' h
    unfold mappedFieldName
    rw [h]
  · intro k' h
    unfold mappedFieldName
    rw [h]
    show (if ("" : String) = "" then k' else "") = k'
    rw [if_pos rfl]

/-- Witness for the amended C9 at the sku → item_id example. -/
theorem C9_custom_mapping_amended_witness :
    ((([("sku", Value.str "A1")] : Obj).map Prod.fst).Nodup ∧
     ([("sku", Value.str "A1")] : Obj).lookup "sku" = some (Value.str "A1")) ∧
    (applyCustomMappings (some [("sku", "item_id")]) [("sku", Value.str "A1")]).lookup
      (mappedFieldName [("sku", "item_id")] "sku") = some (Value.str "A1") :=
  ⟨⟨by decide, by decide⟩,
    (C9_custom_mapping_amended [("sku", "item_id")] "sku" (Value.str "A1")
      [("sku", Value.str "A1")] (by decide) (by decide)
      (by intro kv h hne; simp at h; exact absurd (by rw [h]) hne)).1⟩

/-- C10: detectRawIssues treats a field as present whenever its lookup is
defined — including the empty string — so for a record in which a declared
alias holds the empty string while the canonical name is absent, the
informational rename issue is emitted even though the alias-mapping step of
normalizeRecord treats the empty string as missing and leaves the canonical
field unset. -/
theorem C10_detect_presence (record : Obj) (aliases : List (String × List String))
    (normalizers : List (String × (Value → Value))) (c : String) (l : List String)
    (al : String)
    (hmem : (c, l) ∈ aliases) (hal : al ∈ l)
    (hdef : record.lookup al = some (Value.str ""))
    (hcanon : record.lookup c = none)
    (hnd : (aliases.map Prod.fst).Nodup)
    (hall : ∀ a ∈ l, record.lookup a = none ∨ record.lookup a = some (Value.str "")) :
    ({ field := al, original := Value.str al, fixed := some (Value.str c),
       problem := "Field \"" ++ al ++ "\" renamed to \"" ++ c ++ "\"",
       severity := Severity.info } : RawIssue) ∈
      detectRawIssues record aliases normalizers ∧
    (mapAliasedFields record aliases).lookup c = none := by
  constructor
  · exact detectRawIssues_mem_rename record aliases normalizers _
      (renameIssues_mem record aliases c l al hmem hal (by rw [hdef]; rfl) hcanon)
  · rw [mapAliasedFields_lookup record aliases c l hnd hmem]
    unfold resolveField
    rw [hcanon]
    exact firstNonEmptyAlias_none record l hall

/-- Witness for C10 at the record with `cost = ""` under alias table
`price ← [cost]`. -/
theorem C10_detect_presence_witness :
    (("price", ["cost"]) ∈ ([("price", ["cost"])] : List (String × List String)) ∧
     ([("cost", Value.str "")] : Obj).lookup "cost" = some (Value.str "") ∧
     ([("cost", Value.str "")] : Obj).lookup "price" = none) ∧
    ({ field := "cost", original := Value.str "cost", fixed := some (Value.str "price"),
       problem := "Field \"cost\" renamed to \"price\"",
       severity := Severity.info } : RawIssue) ∈
      detectRawIssues [("cost", Value.str "")] [("price", ["cost"])] [] ∧
    (mapAliasedFields [("cost", Value.str "")] [("price", ["cost"])]).lookup "price" = none :=
  ⟨⟨by decide, by decide, by decide⟩,
    C10_detect_presence [("cost", Value.str "")] [("price", ["cost"])] [] "price" ["cost"]
      "cost" (by decide) (by decide) (by decide) (by decide) (by decide)
      (by intro a ha; simp at ha; simp [ha])⟩

/-- C7: the OpenAI validator's validateRecord is a total function of the zod
safeParse outcome (the embedding is structurally total — it never throws).
On failure, each zod issue yields exactly one error-severity Validation Issue
carrying the given row, the dotted field path, and the value extracted at
that path from the record; isValid is true exactly when no error-severity
issue is present (zod reports at least one issue on failure), in which case
the coerced data is present. -/
theorem C7_validateRecord_wrapper (safeParse : Obj → OpenAI.ZodParseResult)
    (record : Obj) (row : Nat)
    (hne : ∀ zs, safeParse record = OpenAI.ZodParseResult.failure zs → zs ≠ []) :
    ((OpenAI.validateRecord safeParse record row).isValid = true ↔
      ∀ issue ∈ (OpenAI.validateRecord safeParse record row).issues,
        issue.severity ≠ Severity.error) ∧
    ((OpenAI.validateRecord safeParse record row).isValid = true ↔
      ((OpenAI.validateRecord safeParse record row).data).isSome = true) ∧
    ((OpenAI.validateRecord safeParse record row).row = row) ∧
    (∀ zs, safeParse record = OpenAI.ZodParseResult.failure zs →
      (OpenAI.validateRecord safeParse record row).issues =
        zs.map (fun zi =>
          { row := row, field := String.intercalate "." zi.path, message := zi.message,
            severity := Severity.error, value := OpenAI.pathReduce record zi.path })) ∧
    (∀ d, safeParse record = OpenAI.ZodParseResult.success d →
      (OpenAI.validateRecord safeParse record row).issues = [] ∧
      (OpenAI.validateRecord safeParse record row).data = some d) := by
  rcases hsp : safeParse record with d | zs
  · refine ⟨?_, ?_, ?_, ?_, ?_⟩ <;> simp [OpenAI.validateRecord, hsp]
  · have hzs : zs ≠ [] := hne zs hsp
    rcases zs with _ | ⟨z0, zrest⟩
    · exact absurd rfl hzs
    · refine ⟨?_, ?_, ?_, ?_, ?_⟩
      · simp only [OpenAI.validateRecord, hsp]
        constructor
        · intro h
          exact absurd h (by simp)
        · intro h
          exact absurd rfl (h _ (List.mem_map_of_mem _ (List.mem_cons_self z0 zrest)))
      · simp [OpenAI.validateRecord, hsp]
      · simp [OpenAI.validateRecord, hsp]
      · intro zs' h
        injection h with h2
        subst h2
        simp [OpenAI.validateRecord, hsp]
      · intro d h
        exact absurd h (by simp)

/-- Witness for C7 with a concrete one-rule schema check failing on the empty
record. -/
theorem C7_validateRecord_wrapper_witness :
    (∀ zs, requireTitleParse [] = OpenAI.ZodParseResult.failure zs → zs ≠ []) ∧
    (((OpenAI.validateRecord requireTitleParse [] 1).isValid = true ↔
      ∀ issue ∈ (OpenAI.validateRecord requireTitleParse [] 1).issues,
        issue.severity ≠ Severity.error) ∧
    ((OpenAI.validateRecord requireTitleParse [] 1).isValid = true ↔
      ((OpenAI.validateRecord requireTitleParse [] 1).data).isSome = true) ∧
    ((OpenAI.validateRecord requireTitleParse [] 1).row = 1) ∧
    (∀ zs, requireTitleParse [] = OpenAI.ZodParseResult.failure zs →
      (OpenAI.validateRecord requireTitleParse [] 1).issues =
        zs.map (fun zi =>
          { row := 1, field := String.intercalate "." zi.path, message := zi.message,
            severity := Severity.error, value := OpenAI.pathReduce [] zi.path })) ∧
    (∀ d, requireTitleParse [] = OpenAI.ZodParseResult.success d →
      (OpenAI.validateRecord requireTitleParse [] 1).issues = [] ∧
      (OpenAI.validateRecord requireTitleParse [] 1).data = some d)) := by
  have hne : ∀ zs, requireTitleParse [] = OpenAI.ZodParseResult.failure zs → zs ≠ [] := by
    intro zs h
    rw [show requireTitleParse ([] : Obj) = OpenAI.ZodParseResult.failure
      [{ path := ["title"], message := "Required" }] from rfl] at h
    injection h with h2
    subst h2
    simp
  exact ⟨hne, C7_validateRecord_wrapper requireTitleParse [] 1 hne⟩

/-- C1: in every run of validateClient, every emitted progress snapshot
(initial, chunk-boundary, cancellation and final) satisfies
`validRows + invalidRows = processedRows`; the summary's counters sum to the
processed-row figure of the last emitted snapshot (the total on completion,
the cancellation index on cancellation); and each processed record increments
exactly one of the two counters. -/
theorem C1_counter_invariant (v : ValidatorModule) (records : List Obj) (inc : Bool)
    (cm : Option (List (String × String))) (cA : Option Nat) (cs : Nat) :
    ((validateClient v records inc cm cA cs).2.all
        (fun p => p.validRows + p.invalidRows == p.processedRows)) = true ∧
    (∃ lastSnap, (validateClient v records inc cm cA cs).2.getLast? = some lastSnap ∧
        (validateClient v records inc cm cA cs).1.summary.validRows +
          (validateClient v records inc cm cA cs).1.summary.invalidRows =
          lastSnap.processedRows) ∧
    (∀ (record : Obj) (row : Nat) (st : RunState),
        (processRecord v cm inc record row st).validRows +
          (processRecord v cm inc record row st).invalidRows =
          st.validRows + st.invalidRows + 1) := by
  obtain ⟨hmem, hcount⟩ :=
    runLoop_counterSum v cm inc cA cs records.length records 0 initState rfl
  rcases hc : (runLoop v cm inc cA cs records.length records 0 initState).2.2 with _ | k
  · rw [validateClient_completed v records inc cm cA cs hc]
    rw [hc] at hcount
    refine ⟨?_, ?_, fun record row st => processRecord_counterSum v cm inc record row st⟩
    · rw [List.all_eq_true]
      intro p hp
      rw [List.mem_cons] at hp
      rcases hp with hp | hp
      · subst hp
        simp [initialSnap]
      · rw [List.mem_append] at hp
        rcases hp with hp | hp
        · exact beq_iff_eq.mpr (hmem p hp)
        · simp only [List.mem_singleton] at hp
          subst hp
          simp only [progressSnap]
          exact beq_iff_eq.mpr (by simpa using hcount)
    · refine ⟨progressSnap records.length records.length
        (runLoop v cm inc cA cs records.length records 0 initState).1 true false, ?_, ?_⟩
      · rw [show (initialSnap records.length ::
          ((runLoop v cm inc cA cs records.length records 0 initState).2.1 ++
            [progressSnap records.length records.length
              (runLoop v cm inc cA cs records.length records 0 initState).1 true false])) =
          ((initialSnap records.length ::
            (runLoop v cm inc cA cs records.length records 0 initState).2.1) ++
            [progressSnap records.length records.length
              (runLoop v cm inc cA cs records.length records 0 initState).1 true false])
          from rfl]
        exact List.getLast?_concat _
      · simpa [progressSnap] using hcount
  · rw [validateClient_cancelled v records inc cm cA cs k hc]
    rw [hc] at hcount
    have hlast := runLoop_last_cancel v cm inc cA cs records.length records 0 initState k hc
    refine ⟨?_, ?_, fun record row st => processRecord_counterSum v cm inc record row st⟩
    · rw [List.all_eq_true]
      intro p hp
      rw [List.mem_cons] at hp
      rcases hp with hp | hp
      · subst hp
        simp [initialSnap]
      · exact beq_iff_eq.mpr (hmem p hp)
    · refine ⟨progressSnap records.length k
        (runLoop v cm inc cA cs records.length records 0 initState).1 false true, ?_, ?_⟩
      · have hne : (runLoop v cm inc cA cs records.length records 0 initState).2.1 ≠ [] := by
          intro habs
          rw [habs] at hlast
          exact absurd hlast (by simp)
        rw [show (initialSnap records.length ::
            (runLoop v cm inc cA cs records.length records 0 initState).2.1) =
          ([initialSnap records.length] ++
            (runLoop v cm inc cA cs records.length records 0 initState).2.1) from rfl]
        rw [List.getLast?_append, hlast]
        rfl
      · simpa [progressSnap] using hcount

/-- C2: on every run of validateClient and preValidateClient, the retained
issue list never exceeds 100 entries, the retained valid-record list never
exceeds 10000 entries, and the deduplicated raw-issue preview never exceeds
20 distinct entries, independently of how many issues, valid records or rows
actually occurred. -/
theorem C2_retention_caps (v : ValidatorModule) (records : List Obj) (inc : Bool)
    (cm : Option (List (String × String))) (cA cA2 : Option Nat) (cs cs2 : Nat) :
    (validateClient v records inc cm cA cs).1.summary.issues.length ≤ MAX_ISSUES_RETURNED ∧
    ((validateClient v records inc cm cA cs).1.summary.validRecords.getD []).length ≤
      MAX_VALID_RECORDS_STORED ∧
    ((validateClient v records inc cm cA cs).1.rawIssues.getD []).length ≤
      MAX_RAW_ISSUES_PREVIEW ∧
    (preValidateClient v records cA2 cs2).1.rawIssues.length ≤ MAX_RAW_ISSUES_PREVIEW := by
  obtain ⟨hIss, hRec, hRaw⟩ :=
    runLoop_caps v cm inc cA cs records.length records 0 initState
      (by simp [initState, MAX_ISSUES_RETURNED])
      (by simp [initState, MAX_VALID_RECORDS_STORED])
      (by simp [initState, MAX_RAW_ISSUES_PREVIEW])
  have hPre : (preRunLoop v cA2 cs2 records.length records 0 preInitState).1.rawIssuesMap.length ≤
      MAX_RAW_ISSUES_PREVIEW :=
    preRunLoop_caps v cA2 cs2 records.length records 0 preInitState
      (by simp [preInitState, MAX_RAW_ISSUES_PREVIEW])
  have hPreGoal : (preValidateClient v records cA2 cs2).1.rawIssues.length ≤
      MAX_RAW_ISSUES_PREVIEW := by
    rcases hcp : (preRunLoop v cA2 cs2 records.length records 0 preInitState).2.2 with _ | i
    · rw [preValidateClient_completed v records cA2 cs2 hcp]
      simpa using hPre
    · rw [preValidateClient_cancelled v records cA2 cs2 i hcp]
      simpa using hPre
  rcases hc : (runLoop v cm inc cA cs records.length records 0 initState).2.2 with _ | k
  · rw [validateClient_completed v records inc cm cA cs hc]
    refine ⟨hIss, ?_, ?_, hPreGoal⟩
    · rcases inc with _ | _
      · simp [MAX_VALID_RECORDS_STORED]
      · simpa using hRec
    · by_cases h0 : 0 <
        ((runLoop v cm inc cA cs records.length records 0 initState).1.rawIssuesMap.map
          (fun p => p.2)).length
      · rw [if_pos h0]
        simpa using hRaw
      · rw [if_neg h0]
        simp [MAX_RAW_ISSUES_PREVIEW]
  · rw [validateClient_cancelled v records inc cm cA cs k hc]
    refine ⟨hIss, ?_, ?_, hPreGoal⟩
    · rcases inc with _ | _
      · simp [MAX_VALID_RECORDS_STORED]
      · simpa using hRec
    · simpa using hRaw

/-- C3: with the abort signal set from record boundary k (k < n), the run
stops without throwing (the embedding is a total function), returns
success = false, and the last emitted snapshot is the cancellation snapshot
with processedRows = k, isCancelled = true, isComplete = false over the
summary's counters; the summary counters and retained issues are exactly
those of a completed run over the first k records. -/
theorem C3_cancellation (v : ValidatorModule) (records : List Obj) (inc : Bool)
    (cm : Option (List (String × String))) (cs k : Nat) (hk : k < records.length) :
    (validateClient v records inc cm (some k) cs).1.success = false ∧
    (validateClient v records inc cm (some k) cs).2.getLast? = some
      { totalRows := records.length, processedRows := k,
        validRows := (validateClient v records inc cm (some k) cs).1.summary.validRows,
        invalidRows := (validateClient v records inc cm (some k) cs).1.summary.invalidRows,
        errorCount := (validateClient v records inc cm (some k) cs).1.summary.errorCount,
        warningCount := (validateClient v records inc cm (some k) cs).1.summary.warningCount,
        isComplete := false, isCancelled := true } ∧
    (validateClient v records inc cm (some k) cs).1.summary.validRows =
      (validateClient v (records.take k) inc cm none cs).1.summary.validRows ∧
    (validateClient v records inc cm (some k) cs).1.summary.invalidRows =
      (validateClient v (records.take k) inc cm none cs).1.summary.invalidRows ∧
    (validateClient v records inc cm (some k) cs).1.summary.errorCount =
      (validateClient v (records.take k) inc cm none cs).1.summary.errorCount ∧
    (validateClient v records inc cm (some k) cs).1.summary.warningCount =
      (validateClient v (records.take k) inc cm none cs).1.summary.warningCount ∧
    (validateClient v records inc cm (some k) cs).1.summary.issues =
      (validateClient v (records.take k) inc cm none cs).1.summary.issues := by
  have hcancel := runLoop_cancel v cm inc cs records.length k records 0 initState (Nat.zero_le k)
  rw [Nat.sub_zero] at hcancel
  rw [if_neg (by omega)] at hcancel
  have hc : (runLoop v cm inc (some k) cs records.length records 0 initState).2.2 = some k := by
    rw [hcancel]
  have hlen : (records.take k).length = k := by
    rw [List.length_take]
    omega
  have hnone : (runLoop v cm inc none cs (records.take k).length (records.take k) 0
      initState).2.2 = none :=
    runLoop_none_no_cancel v cm inc cs (records.take k).length (records.take k) 0 initState
  have hind := runLoop_tR_indep v cm inc none cs records.length (records.take k).length
    (records.take k) 0 initState
  rw [validateClient_cancelled v records inc cm (some k) cs k hc,
    validateClient_completed v (records.take k) inc cm none cs hnone]
  simp only
  rw [hcancel]
  simp only
  rw [hind.1]
  refine ⟨by trivial, ?_, by trivial, by trivial, by trivial, by trivial, by trivial⟩
  rw [getLast?_cons_append_singleton]
  rfl

/-- Witness for C3: cancelling a three-record run at index 1 with the
always-accepting validator. -/
theorem C3_cancellation_witness :
    1 < ([[], [("a", Value.num 3)], []] : List Obj).length ∧
    ((validateClient constValidValidator [[], [("a", Value.num 3)], []] true none
        (some 1) 500).1.success = false ∧
    (validateClient constValidValidator [[], [("a", Value.num 3)], []] true none
        (some 1) 500).2.getLast? = some
      { totalRows := ([[], [("a", Value.num 3)], []] : List Obj).length, processedRows := 1,
        validRows := (validateClient constValidValidator [[], [("a", Value.num 3)], []] true
          none (some 1) 500).1.summary.validRows,
        invalidRows := (validateClient constValidValidator [[], [("a", Value.num 3)], []] true
          none (some 1) 500).1.summary.invalidRows,
        errorCount := (validateClient constValidValidator [[], [("a", Value.num 3)], []] true
          none (some 1) 500).1.summary.errorCount,
        warningCount := (validateClient constValidValidator [[], [("a", Value.num 3)], []] true
          none (some 1) 500).1.summary.warningCount,
        isComplete := false, isCancelled := true } ∧
    (validateClient constValidValidator [[], [("a", Value.num 3)], []] true none
        (some 1) 500).1.summary.validRows =
      (validateClient constValidValidator (([[], [("a", Value.num 3)], []] : List Obj).take 1)
        true none none 500).1.summary.validRows ∧
    (validateClient constValidValidator [[], [("a", Value.num 3)], []] true none
        (some 1) 500).1.summary.invalidRows =
      (validateClient constValidValidator (([[], [("a", Value.num 3)], []] : List Obj).take 1)
        true none none 500).1.summary.invalidRows ∧
    (validateClient constValidValidator [[], [("a", Value.num 3)], []] true none
        (some 1) 500).1.summary.errorCount =
      (validateClient constValidValidator (([[], [("a", Value.num 3)], []] : List Obj).take 1)
        true none none 500).1.summary.errorCount ∧
    (validateClient constValidValidator [[], [("a", Value.num 3)], []] true none
        (some 1) 500).1.summary.warningCount =
      (validateClient constValidValidator (([[], [("a", Value.num 3)], []] : List Obj).take 1)
        true none none 500).1.summary.warningCount ∧
    (validateClient constValidValidator [[], [("a", Value.num 3)], []] true none
        (some 1) 500).1.summary.issues =
      (validateClient constValidValidator (([[], [("a", Value.num 3)], []] : List Obj).take 1)
        true none none 500).1.summary.issues) :=
  ⟨by decide,
    C3_cancellation constValidValidator [[], [("a", Value.num 3)], []] true none 500 1
      (by decide)⟩

/-- C4 counterexample: the claim says the truncated flag is true iff more
issues occurred than were retained on every run, completed or cancelled.  But
a run cancelled at index 0 with the always-accepting validator emits and
retains zero issues, and the code still returns `truncated = true` (the
cancellation branch hardcodes `truncated: true, validRecordsTruncated:
false`). -/
theorem C4_counterexample :
    (validateClient constValidValidator [[]] true none (some 0) 500).1.truncated = true ∧
    (validateClient constValidValidator [[]] true none (some 0) 500).1.summary.errorCount = 0 ∧
    (validateClient constValidValidator [[]] true none (some 0) 500).1.summary.warningCount = 0 ∧
    (validateClient constValidValidator [[]] true none (some 0) 500).1.summary.issues = [] := by
  exact ⟨by decide, by decide, by decide, by decide⟩

/-- C4 (amended): on completed runs with full record retention
(`includeValidRecords = true`), a validator whose issues are all of error or
warning severity, and data present on every valid record, `truncated` is true
iff more issues occurred (`errorCount + warningCount`) than were retained,
and `validRecordsTruncated` is true iff more valid records occurred than were
retained; the two flags are computed independently.  On cancelled runs the
code instead hardcodes `truncated = true` and `validRecordsTruncated =
false`. -/
theorem C4_truncation_flags_amended (v : ValidatorModule) (records : List Obj)
    (cm : Option (List (String × String))) (cs : Nat)
    (hsev : ∀ (rec : Obj) (row : Nat), ∀ issue ∈ (v.validateRecord rec row).issues,
      issue.severity = Severity.error ∨ issue.severity = Severity.warning)
    (hdata : ∀ (rec : Obj) (row : Nat), (v.validateRecord rec row).isValid = true →
      ((v.validateRecord rec row).data).isSome) :
    ((validateClient v records true cm none cs).1.truncated = true ↔
      (validateClient v records true cm none cs).1.summary.issues.length <
        (validateClient v records true cm none cs).1.summary.errorCount +
          (validateClient v records true cm none cs).1.summary.warningCount) ∧
    ((validateClient v records true cm none cs).1.validRecordsTruncated = true ↔
      (((validateClient v records true cm none cs).1.summary.validRecords.getD []).length <
        (validateClient v records true cm none cs).1.summary.validRows)) ∧
    (∀ k, k < records.length →
      (validateClient v records true cm (some k) cs).1.truncated = true ∧
      (validateClient v records true cm (some k) cs).1.validRecordsTruncated = false) := by
  obtain ⟨hIssMin, hRecMin⟩ :=
    runLoop_min v cm none cs records.length hsev hdata records 0 initState
      (by simp [initState]) (by simp [initState])
  have hc : (runLoop v cm true none cs records.length records 0 initState).2.2 = none :=
    runLoop_none_no_cancel v cm true cs records.length records 0 initState
  refine ⟨?_, ?_, ?_⟩
  · rw [validateClient_completed v records true cm none cs hc]
    simp only
    rw [hIssMin]
    unfold MAX_ISSUES_RETURNED at *
    constructor
    · intro h
      have := of_decide_eq_true h
      omega
    · intro h
      apply decide_eq_true
      omega
  · rw [validateClient_completed v records true cm none cs hc]
    simp only
    rw [if_pos trivial]
    simp only [Option.getD_some]
    rw [hRecMin]
    unfold MAX_VALID_RECORDS_STORED at *
    constructor
    · intro h
      simp only [Bool.true_and] at h
      have := of_decide_eq_true h
      omega
    · intro h
      simp only [Bool.true_and]
      apply decide_eq_true
      omega
  · intro k hk
    have hcancel :=
      runLoop_cancel v cm true cs records.length k records 0 initState (Nat.zero_le k)
    rw [Nat.sub_zero] at hcancel
    rw [if_neg (by omega)] at hcancel
    have hck : (runLoop v cm true (some k) cs records.length records 0 initState).2.2 =
        some k := by rw [hcancel]
    rw [validateClient_cancelled v records true cm (some k) cs k hck]
    exact ⟨rfl, rfl⟩

/-- Witness for the amended C4 with the always-accepting validator on one
record: no truncation occurs and both flags are false on the completed run;
cancelling at index 0 hardcodes the flags. -/
theorem C4_truncation_flags_amended_witness :
    ((∀ (rec : Obj) (row : Nat), ∀ issue ∈ (constValidValidator.validateRecord rec row).issues,
        issue.severity = Severity.error ∨ issue.severity = Severity.warning) ∧
     (∀ (rec : Obj) (row : Nat), (constValidValidator.validateRecord rec row).isValid = true →
        ((constValidValidator.validateRecord rec row).data).isSome)) ∧
    (((validateClient constValidValidator [[]] true none none 500).1.truncated = true ↔
      (validateClient constValidValidator [[]] true none none 500).1.summary.issues.length <
        (validateClient constValidValidator [[]] true none none 500).1.summary.errorCount +
          (validateClient constValidValidator [[]] true none none 500).1.summary.warningCount) ∧
    ((validateClient constValidValidator [[]] true none none 500).1.validRecordsTruncated =
        true ↔
      (((validateClient constValidValidator [[]] true none none
            500).1.summary.validRecords.getD []).length <
        (validateClient constValidValidator [[]] true none none 500).1.summary.validRows)) ∧
    (∀ k, k < ([[]] : List Obj).length →
      (validateClient constValidValidator [[]] true none (some k) 500).1.truncated = true ∧
      (validateClient constValidValidator [[]] true none (some k)
        500).1.validRecordsTruncated = false)) := by
  have hsev : ∀ (rec : Obj) (row : Nat),
      ∀ issue ∈ (constValidValidator.validateRecord rec row).issues,
      issue.severity = Severity.error ∨ issue.severity = Severity.warning := by
    intro rec row issue h
    exact absurd h (List.not_mem_nil issue)
  have hdata : ∀ (rec : Obj) (row : Nat),
      (constValidValidator.validateRecord rec row).isValid = true →
      ((constValidValidator.validateRecord rec row).data).isSome := by
    intro rec row _
    rfl
  exact ⟨⟨hsev, hdata⟩,
    C4_truncation_flags_amended constValidValidator [[]] none 500 hsev hdata⟩

/-- C8: for every validator and parsed file, preValidateClient computes each
record's pass/fail by applying the raw check
(`validateRecordRaw ?? validateRecord`) directly to the raw record — no alias
resolution, default injection or normalizer is applied anywhere in the loop
(the counted check below takes the raw record itself) — while still building
the deduplicated raw-issue preview from the first 20 raw records and emitting
the initial and final progress snapshots.  For the registered OpenAI module,
which ships no `validateRecordRaw`, the fallback is its `validateRecord`,
itself a direct schema check of the raw record, so pass/fail is exactly the
zod outcome on the raw record. -/
theorem C8_prevalidation_raw (v : ValidatorModule) (records : List Obj) (cs : Nat) :
    (preValidateClient v records none cs).1.totalRows = records.length ∧
    (preValidateClient v records none cs).1.analyzedRows = records.length ∧
    (preValidateClient v records none cs).1.validRows =
      records.enum.countP (fun p => (preCheckFn v p.2 (p.1 + 1)).isValid) ∧
    (preValidateClient v records none cs).1.invalidRows =
      records.enum.countP (fun p => !(preCheckFn v p.2 (p.1 + 1)).isValid) ∧
    (preValidateClient v records none cs).1.rawIssues =
      (records.enum.foldl
        (fun m p =>
          if p.1 + 1 ≤ 20 then
            addRawIssues m (detectRawIssues p.2 v.fieldAliases v.fieldNormalizers)
          else m) []).map (fun p => p.2) ∧
    (preValidateClient v records none cs).2.head? = some (preInitialSnap records.length) ∧
    (preValidateClient v records none cs).2.getLast? = some
      { totalRows := records.length, processedRows := records.length,
        validRows := (preValidateClient v records none cs).1.validRows,
        invalidRows := (preValidateClient v records none cs).1.invalidRows,
        isComplete := true, isCancelled := false } ∧
    (∀ sp : Obj → OpenAI.ZodParseResult,
      (preValidateClient (OpenAI.openAIValidator sp) records none cs).1.validRows =
        records.enum.countP (fun p =>
          match sp p.2 with
          | OpenAI.ZodParseResult.success _ => true
          | OpenAI.ZodParseResult.failure _ => false)) := by
  obtain ⟨hno, hvr, hir, hmap⟩ := preRunLoop_spec v cs records.length records 0 preInitState
  rw [preValidateClient_completed v records none cs hno]
  simp only
  refine ⟨by trivial, by trivial, ?_, ?_, ?_, by trivial, ?_, ?_⟩
  · rw [hvr]
    show 0 + (List.enumFrom 0 records).countP
      (fun p => (preCheckFn v p.2 (p.1 + 1)).isValid) = _
    rw [Nat.zero_add]
    rfl
  · rw [hir]
    show 0 + (List.enumFrom 0 records).countP
      (fun p => !(preCheckFn v p.2 (p.1 + 1)).isValid) = _
    rw [Nat.zero_add]
    rfl
  · rw [hmap]
    rfl
  · rw [getLast?_cons_append_singleton]
  · intro sp
    obtain ⟨hno2, hvr2, _, _⟩ :=
      preRunLoop_spec (OpenAI.openAIValidator sp) cs records.length records 0 preInitState
    rw [preValidateClient_completed (OpenAI.openAIValidator sp) records none cs hno2]
    simp only
    rw [hvr2]
    show 0 + (List.enumFrom 0 records).countP
      (fun p => (preCheckFn (OpenAI.openAIValidator sp) p.2 (p.1 + 1)).isValid) = _
    rw [Nat.zero_add]
    have hpt : ∀ p ∈ List.enumFrom 0 records,
        ((preCheckFn (OpenAI.openAIValidator sp) p.2 (p.1 + 1)).isValid = true ↔
          (match sp p.2 with
           | OpenAI.ZodParseResult.success _ => true
           | OpenAI.ZodParseResult.failure _ => false) = true) := by
      intro p _
      rcases hsp : sp p.2 with d | zs <;>
        simp [preCheckFn, OpenAI.openAIValidator, OpenAI.validateRecord, hsp]
    rw [List.countP_congr hpt]
    rfl

end FeedValidator
